import Mathlib

/-!
Verification development for the gremlin-go driver core:
GraphBinary codec (graphBinaryTypeSerializer), the channel-based
ResultSet, and the driver connection settings.

Byte buffers (Go bytes.Buffer) are modelled as `List Nat` of byte
values; writers return the list of bytes a call appends together with
the optional error, and readers consume from the front of the list,
returning the produced Go value, the remaining buffer and the optional
error, mirroring Go's (value, error) returns with in-place buffer
mutation.
-/

set_option maxHeartbeats 1600000

namespace GremlinGo

/-- Big-endian interpretation of a byte list, modelling big.Int.SetBytes
and binary.BigEndian decoding. -/
def beNat : List Nat → Nat
  | [] => 0
  | b :: t => b * 256 ^ t.length + beNat t

/-- Big-endian bytes of a Nat padded to exactly `k` bytes (the low `k`
bytes), modelling binary.Write of a fixed-width value. -/
def padBE : Nat → Nat → List Nat
  | 0, _ => []
  | k + 1, n => (n / 256 ^ k) % 256 :: padBE k n

/-- Minimal big-endian bytes of a Nat, modelling big.Int.Bytes (empty for 0,
no leading zero byte otherwise). -/
def natBytes (n : Nat) : List Nat :=
  if h : n = 0 then [] else natBytes (n / 256) ++ [n % 256]
termination_by n
decreasing_by
  exact Nat.div_lt_self (Nat.pos_of_ne_zero h) (by norm_num)

theorem natBytes_zero : natBytes 0 = [] := by
  unfold natBytes; simp

theorem natBytes_pos (n : Nat) (h : n ≠ 0) :
    natBytes n = natBytes (n / 256) ++ [n % 256] := by
  conv_lhs => unfold natBytes
  simp [h]

@[simp] theorem padBE_length (k n : Nat) : (padBE k n).length = k := by
  induction k generalizing n with
  | zero => rfl
  | succ k ih => simp [padBE, ih]

theorem beNat_append_singleton (l : List Nat) (b : Nat) :
    beNat (l ++ [b]) = beNat l * 256 + b := by
  induction l with
  | nil => simp [beNat]
  | cons x t ih =>
      show x * 256 ^ (t ++ [b]).length + beNat (t ++ [b]) = _
      rw [ih, List.length_append]
      simp [beNat]
      ring

theorem beNat_natBytes (n : Nat) : beNat (natBytes n) = n := by
  induction n using Nat.strong_induction_on with
  | _ n ih =>
      by_cases h : n = 0
      · simp [h, natBytes_zero, beNat]
      · rw [natBytes_pos n h, beNat_append_singleton,
          ih (n / 256) (Nat.div_lt_self (Nat.pos_of_ne_zero h) (by norm_num))]
        omega

theorem natBytes_mem_lt (n : Nat) : ∀ b ∈ natBytes n, b < 256 := by
  induction n using Nat.strong_induction_on with
  | _ n ih =>
      by_cases h : n = 0
      · simp [h, natBytes_zero]
      · rw [natBytes_pos n h]
        intro b hb
        rcases List.mem_append.mp hb with h1 | h2
        · exact ih (n / 256) (Nat.div_lt_self (Nat.pos_of_ne_zero h) (by norm_num)) b h1
        · simp at h2; omega

theorem beNat_lt (l : List Nat) (h : ∀ b ∈ l, b < 256) :
    beNat l < 256 ^ l.length := by
  induction l with
  | nil => simp [beNat]
  | cons x t ih =>
      have hx : x < 256 := h x (by simp)
      have ht : beNat t < 256 ^ t.length := ih (fun b hb => h b (by simp [hb]))
      have : x * 256 ^ t.length + beNat t < (x + 1) * 256 ^ t.length := by
        have := Nat.pos_pow_of_pos t.length (show 0 < 256 by norm_num)
        nlinarith
      calc beNat (x :: t) = x * 256 ^ t.length + beNat t := rfl
        _ < (x + 1) * 256 ^ t.length := this
        _ ≤ 256 * 256 ^ t.length := by
            have : x + 1 ≤ 256 := by omega
            exact Nat.mul_le_mul_right _ this
        _ = 256 ^ (t.length + 1) := by ring
        _ = 256 ^ (x :: t).length := by simp

theorem natBytes_length (k n : Nat) (h1 : 256 ^ k ≤ n) (h2 : n < 256 ^ (k + 1)) :
    (natBytes n).length = k + 1 := by
  induction k generalizing n with
  | zero =>
      have hn : n ≠ 0 := by simp at h1; omega
      rw [natBytes_pos n hn]
      have hdiv : n / 256 = 0 := by
        apply Nat.div_eq_of_lt
        simpa using h2
      simp [hdiv, natBytes_zero]
  | succ k ih =>
      have hn : n ≠ 0 := by
        have : 0 < 256 ^ (k + 1) := Nat.pos_pow_of_pos _ (by norm_num)
        omega
      rw [natBytes_pos n hn]
      have hlo : 256 ^ k ≤ n / 256 := by
        rw [Nat.le_div_iff_mul_le (by norm_num)]
        calc 256 ^ k * 256 = 256 ^ (k + 1) := by ring
          _ ≤ n := h1
      have hhi : n / 256 < 256 ^ (k + 1) := by
        rw [Nat.div_lt_iff_lt_mul (by norm_num)]
        calc n < 256 ^ (k + 1 + 1) := h2
          _ = 256 ^ (k + 1) * 256 := by ring
      simp [ih (n / 256) hlo hhi]

theorem beNat_padBE (k n : Nat) : beNat (padBE k n) = n % 256 ^ k := by
  induction k generalizing n with
  | zero => simp [padBE, beNat, Nat.mod_one]
  | succ k ih =>
      show (n / 256 ^ k) % 256 * 256 ^ (padBE k n).length + beNat (padBE k n) = _
      rw [padBE_length, ih]
      have : 256 ^ (k + 1) = 256 ^ k * 256 := by ring
      rw [this, Nat.mod_mul]
      ring

theorem padBE_mem_lt (k n : Nat) : ∀ b ∈ padBE k n, b < 256 := by
  induction k generalizing n with
  | zero => simp [padBE]
  | succ k ih =>
      intro b hb
      simp only [padBE, List.mem_cons] at hb
      rcases hb with h | h
      · omega
      · exact ih n b h

/-- Two's-complement interpretation of `k` big-endian bytes, modelling
binary.Read of a signed fixed-width integer. -/
def signedOfBE (k : Nat) (bs : List Nat) : Int :=
  let u := beNat bs
  if u < 256 ^ k / 2 then (u : Int) else (u : Int) - (256 ^ k : Nat)

/-- Two's-complement big-endian bytes of an Int at width `k` bytes,
modelling binary.Write of a signed fixed-width integer. -/
def intBEBytes (k : Nat) (n : Int) : List Nat :=
  padBE k (n % ((256 ^ k : Nat) : Int)).toNat

@[simp] theorem intBEBytes_length (k : Nat) (n : Int) :
    (intBEBytes k n).length = k := by
  simp [intBEBytes]

theorem intBEBytes_mem_lt (k : Nat) (n : Int) :
    ∀ b ∈ intBEBytes k n, b < 256 := padBE_mem_lt _ _

theorem signedOfBE_intBEBytes (k : Nat) (n : Int) (hk : 0 < k)
    (h1 : -(((256 ^ k / 2 : Nat)) : Int) ≤ n) (h2 : n < ((256 ^ k / 2 : Nat) : Int)) :
    signedOfBE k (intBEBytes k n) = n := by
  set M := 256 ^ k with hMdef
  have hM0 : 0 < M := Nat.pos_pow_of_pos _ (by norm_num)
  have hMeven : M / 2 * 2 = M := by
    refine Nat.div_mul_cancel ?_
    exact dvd_pow (by norm_num) (by omega)
  have hMne : ((M : Int)) ≠ 0 := by exact_mod_cast hM0.ne'
  have hmodlt : n % (M : Int) < (M : Int) := Int.emod_lt_of_pos n (by exact_mod_cast hM0)
  have hmodge : (0 : Int) ≤ n % (M : Int) := Int.emod_nonneg n hMne
  have hhalf : ((M / 2 : Nat) : Int) ≤ (M : Int) := by
    exact_mod_cast Nat.div_le_self M 2
  set u : Nat := (n % (M : Int)).toNat with hu
  have huM : u < M := by omega
  have hbe : beNat (intBEBytes k n) = u := by
    rw [intBEBytes, beNat_padBE]
    exact Nat.mod_eq_of_lt huM
  have hucast : (u : Int) = n % (M : Int) := by omega
  rcases le_or_lt 0 n with hn | hn
  · have hval : n % (M : Int) = n := Int.emod_eq_of_lt hn (by omega)
    rw [signedOfBE, hbe]
    split
    · omega
    · omega
  · have hval : n % (M : Int) = n + M := by
      have h3 : (n + (M : Int) * 1) % (M : Int) = n % (M : Int) :=
        Int.add_mul_emod_self_left n (M : Int) 1
      have h4 : (n + (M : Int)) % (M : Int) = n + (M : Int) :=
        Int.emod_eq_of_lt (by omega) (by omega)
      calc n % (M : Int) = (n + (M : Int) * 1) % (M : Int) := (h3).symm
        _ = n + (M : Int) := by rw [mul_one, h4]
    rw [signedOfBE, hbe]
    split
    · omega
    · omega

/-! DataType constants from graphBinary.go (`DataType` is a uint8). -/

def NullType : Nat := 0xFE
def IntType : Nat := 0x01
def LongType : Nat := 0x02
def StringType : Nat := 0x03
def DoubleType : Nat := 0x07
def FloatType : Nat := 0x08
def ListType : Nat := 0x09
def MapType : Nat := 0x0a
def UUIDType : Nat := 0x0c
def BytecodeType : Nat := 0x15
def TraverserType : Nat := 0x21
def ByteType : Nat := 0x24
def ShortType : Nat := 0x26
def BooleanType : Nat := 0x27
def BigIntegerType : Nat := 0x23

/-- Value flag byte for a null value (valueFlagNull). -/
def valueFlagNull : Nat := 1

/-- Value flag byte for a concrete value (valueFlagNone). -/
def valueFlagNone : Nat := 0

/-- nullBytes from graphBinary.go: the fully-qualified encoding of a nil
value, type code NullType followed by the null value flag. -/
def nullBytes : List Nat := [NullType, 0x01]

/-!
The dynamic Go values (interface values) flowing through the codec.
Each constructor is one host type the serializer dispatches on:
  vNull     : Go nil
  vBool     : bool
  vByte     : uint8
  vShort    : int16
  vInt32    : int32
  vInt64    : int64
  vGoInt    : int (Go machine int, serialized as int64)
  vUInt16   : uint16 (serialized as int32)
  vUInt32   : uint32 (serialized as int64)
  vBigInt   : *big.Int
  vFloat32  : float32, carried as its 4-byte IEEE-754 bit pattern
  vFloat64  : float64, carried as its 8-byte IEEE-754 bit pattern
  vString   : string, carried as its byte sequence
  vUUID     : uuid.UUID, carried as its 16 bytes
  vList     : a slice or array ([]interface)
  vMap      : a map, carried as its entries in iteration order
  vBytecode : bytecode (step instructions, source instructions)
  vTraverser  : Traverser struct value (as the reader produces)
  vTraverserP : *Traverser pointer (as addResult tests for)
Floats are carried as raw bit patterns because the codec only ever
moves their IEEE bytes; arithmetic on them never happens here.
-/

mutual
inductive GoValue where
  | vNull : GoValue
  | vBool (b : Bool) : GoValue
  | vByte (n : Nat) : GoValue
  | vShort (n : Int) : GoValue
  | vInt32 (n : Int) : GoValue
  | vInt64 (n : Int) : GoValue
  | vGoInt (n : Int) : GoValue
  | vUInt16 (n : Nat) : GoValue
  | vUInt32 (n : Nat) : GoValue
  | vBigInt (n : Int) : GoValue
  | vFloat32 (bits : Nat) : GoValue
  | vFloat64 (bits : Nat) : GoValue
  | vString (bytes : List Nat) : GoValue
  | vUUID (bytes : List Nat) : GoValue
  | vList (xs : GoList) : GoValue
  | vMap (ps : GoPairs) : GoValue
  | vBytecode (steps sources : InstrList) : GoValue
  | vTraverser (bulk : Int) (value : GoValue) : GoValue
  | vTraverserP (bulk : Int) (value : GoValue) : GoValue
  deriving DecidableEq

inductive GoList where
  | nil : GoList
  | cons (hd : GoValue) (tl : GoList) : GoList
  deriving DecidableEq

inductive GoPairs where
  | nil : GoPairs
  | cons (k v : GoValue) (tl : GoPairs) : GoPairs
  deriving DecidableEq

inductive InstrList where
  | nil : InstrList
  | cons (operator : List Nat) (arguments : GoList) (tl : InstrList) : InstrList
  deriving DecidableEq
end

/-- Length of a GoList. -/
def GoList.length : GoList → Nat
  | .nil => 0
  | .cons _ t => t.length + 1

/-- Number of entries of a GoPairs. -/
def GoPairs.length : GoPairs → Nat
  | .nil => 0
  | .cons _ _ t => t.length + 1

/-- Number of instructions of an InstrList. -/
def InstrList.length : InstrList → Nat
  | .nil => 0
  | .cons _ _ t => t.length + 1

/-- Bit length of a Nat, modelling big.Int.BitLen (0 for 0). -/
def bitLen (x : Nat) : Nat := if x = 0 then 0 else Nat.log2 x + 1

/-- getSignedBytesFromBigInt from graphBinary.go: the minimally encoded
two's-complement big-endian byte representation of an integer.  A leading
0x00 is added for a positive number whose top byte has the high bit set;
for a negative number the two's-complement bytes at width
(BitLen/8+1)*8 bits are produced and a redundant leading 0xff byte is
stripped when the following byte has its high bit set. -/
def getSignedBytesFromBigInt (n : Int) : List Nat :=
  if 0 < n then
    match natBytes n.toNat with
    | [] => []
    | b0 :: bs => if b0 &&& 0x80 ≠ 0 then 0 :: b0 :: bs else b0 :: bs
  else if n < 0 then
    let len8 := (bitLen n.natAbs / 8 + 1) * 8
    match natBytes (n + 2 ^ len8).toNat with
    | b0 :: b1 :: rest =>
        if b0 = 0xff ∧ b1 &&& 0x80 ≠ 0 then b1 :: rest else b0 :: b1 :: rest
    | other => other
  else []

/-- getBigIntFromSignedBytes from graphBinary.go: interprets a big-endian
byte list as a signed (two's-complement) integer.  When the high bit of
the first byte is set, the source subtracts 2^((len+1)*8), takes the
absolute bytes of the result, drops the leading 0xff byte and one
redundant 0x00 byte, and negates.  (On an empty list after the first
drop the source would crash on the index; that cannot happen for any
nonempty input since the subtraction magnitude always has at least two
bytes there.) -/
def stripOneLeadingZero : List Nat → List Nat
  | 0 :: rest => rest
  | other => other

def getBigIntFromSignedBytes (b : List Nat) : Int :=
  match b with
  | [] => 0
  | b0 :: bs =>
    if b0 &&& 0x80 = 0 then (beNat (b0 :: bs) : Int)
    else
      let len8 := ((b0 :: bs).length * 8 / 8 + 1) * 8
      let b2 := (natBytes ((2 ^ len8 : Int) - (beNat (b0 :: bs) : Int)).natAbs).tail
      Neg.neg (beNat (stripOneLeadingZero b2) : Int)

/-! Error messages used by the serializer (errors.New texts in the source). -/

def errUnexpectedNull : String := "unexpected null value to writeType when nullable is false"
def errUnknownSerialize : String := "unknown data type to serialize"
def errUnknownDeserialize : String := "unknown data type to deserialize"
def errEOF : String := "EOF"
def errNullTypeFlag : String := "expected isNull check to be true for NullType"
def errWrongDataType : String := "datatype readType from input buffer different from requested datatype"
def errMakeSliceNegative : String := "runtime crash: makeslice: len out of range"
def errNilSerializerUsed : String := "runtime crash: reader dispatch on missing serializer"
def errUnhashableKey : String := "runtime crash: hash of unhashable type"
def errOutOfFuel : String := "model artifact: recursion fuel exhausted"

/-- getSerializerToWrite from graphBinary.go, restricted to the data type
it selects: the wire type is chosen purely by the host (static Go) type
of the value via the type switch; `none` models the error branch
("unknown data type to serialize") reached for types with no serializer
(Traverser values and pointers fall through to the reflect default and
fail).  Go nil never reaches this function (write/writeValue test nil
first). -/
def getSerializerToWriteDataType : GoValue → Option Nat
  | .vBytecode _ _ => some BytecodeType
  | .vString _ => some StringType
  | .vBigInt _ => some BigIntegerType
  | .vInt64 _ => some LongType
  | .vGoInt _ => some LongType
  | .vUInt32 _ => some LongType
  | .vInt32 _ => some IntType
  | .vUInt16 _ => some IntType
  | .vShort _ => some ShortType
  | .vByte _ => some ByteType
  | .vBool _ => some ByteType
  | .vUUID _ => some UUIDType
  | .vFloat32 _ => some FloatType
  | .vFloat64 _ => some DoubleType
  | .vMap _ => some MapType
  | .vList _ => some ListType
  | .vNull => none
  | .vTraverser _ _ => none
  | .vTraverserP _ _ => none

/-- Sequencing of two buffer appends with Go-style error propagation: if
the first step errored, the second never runs (the caller returns early),
otherwise the appended bytes accumulate. -/
def seqW (a : List Nat × Option String) (f : Unit → List Nat × Option String) :
    List Nat × Option String :=
  match a with
  | (b, some e) => (b, some e)
  | (b, none) =>
      match f () with
      | (b2, e2) => (b ++ b2, e2)

/-- Positivity of the automatically derived size of a GoList. -/
theorem GoList.sizeOf_pos (xs : GoList) : 0 < sizeOf xs := by
  cases xs <;> simp_arith

mutual
/-- graphBinaryTypeSerializer.write: writes an object in fully-qualified
format {type_code}{value_flag}{value}; nil becomes nullBytes.  The
returned list is what the call appends to the buffer. -/
def write (v : GoValue) : List Nat × Option String :=
  if v = .vNull then (nullBytes, none)
  else
    match getSerializerToWriteDataType v with
    | none => ([], some errUnknownSerialize)
    | some code => seqW ([code], none) (fun _ => writeTypeValue v true)
termination_by (sizeOf v, 3)

/-- graphBinaryTypeSerializer.writeValue: writes a value without type
information (the type-code write in the source is commented out). -/
def writeValue (v : GoValue) (nullable : Bool) : List Nat × Option String :=
  if v = .vNull then
    (if nullable then ([valueFlagNull], none) else ([], some errUnexpectedNull))
  else
    match getSerializerToWriteDataType v with
    | none => ([], some errUnknownSerialize)
    | some _ => writeTypeValue v nullable
termination_by (sizeOf v, 3)

/-- graphBinaryTypeSerializer.writeTypeValue: writes the nullability flag
(when nullable) followed by the value bytes; nil in a non-nullable slot
errors without touching the buffer. -/
def writeTypeValue (v : GoValue) (nullable : Bool) : List Nat × Option String :=
  if v = .vNull then
    (if nullable then ([valueFlagNull], none) else ([], some errUnexpectedNull))
  else seqW (if nullable then [valueFlagNone] else [], none) (fun _ => typeWriter v)
termination_by (sizeOf v, 2)

/-- The per-type writer functions installed by getSerializerToWrite
(the closures and listWriter/mapWriter/bigIntWriter/bytecodeWriter).
The cases never selected by getSerializerToWriteDataType are
unreachable through write/writeValue and error defensively. -/
def typeWriter (v : GoValue) : List Nat × Option String :=
  match v with
  | .vBytecode steps sources =>
      seqW (instructionSetWriter steps) (fun _ => instructionSetWriter sources)
  | .vString bs => (intBEBytes 4 bs.length ++ bs, none)
  | .vBigInt n =>
      let signedBytes := getSignedBytesFromBigInt n
      (intBEBytes 4 signedBytes.length ++ signedBytes, none)
  | .vInt64 n => (intBEBytes 8 n, none)
  | .vGoInt n => (intBEBytes 8 n, none)
  | .vUInt32 n => (intBEBytes 8 (n : Int), none)
  | .vInt32 n => (intBEBytes 4 n, none)
  | .vUInt16 n => (intBEBytes 4 (n : Int), none)
  | .vShort n => (intBEBytes 2 n, none)
  | .vByte n => ([n % 256], none)
  | .vBool b => ([if b then 1 else 0], none)
  | .vUUID bs => (bs, none)
  | .vFloat32 bits => (padBE 4 bits, none)
  | .vFloat64 bits => (padBE 8 bits, none)
  | .vList xs => seqW (intBEBytes 4 xs.length, none) (fun _ => listWriter xs)
  | .vMap ps => seqW (intBEBytes 4 ps.length, none) (fun _ => mapWriter ps)
  | .vNull => ([], some errUnknownSerialize)
  | .vTraverser _ _ => ([], some errUnknownSerialize)
  | .vTraverserP _ _ => ([], some errUnknownSerialize)
termination_by (sizeOf v, 1)

/-- Element loop of listWriter: every element is written fully
qualified; the first element error aborts. -/
def listWriter : GoList → List Nat × Option String
  | .nil => ([], none)
  | .cons h t => seqW (write h) (fun _ => listWriter t)
termination_by xs => (sizeOf xs, 2)

/-- Entry loop of mapWriter: key then value, both fully qualified. -/
def mapWriter : GoPairs → List Nat × Option String
  | .nil => ([], none)
  | .cons k v t =>
      seqW (write k) (fun _ => seqW (write v) (fun _ => mapWriter t))
termination_by ps => (sizeOf ps, 2)

/-- instructionSetWriter from graphBinary.go: {count:int32} then each
instruction as {name:String non-FQ}{args_count:int32}{arg FQ}*. -/
def instructionSetWriter (is : InstrList) : List Nat × Option String :=
  seqW (intBEBytes 4 is.length, none) (fun _ => writeInstrs is)
termination_by (sizeOf is, 2)

/-- Instruction loop of instructionSetWriter. -/
def writeInstrs : InstrList → List Nat × Option String
  | .nil => ([], none)
  | .cons op args t =>
      seqW (writeValue (.vString op) false) (fun _ =>
        seqW (intBEBytes 4 args.length, none) (fun _ =>
          seqW (listWriter args) (fun _ => writeInstrs t)))
termination_by is => (sizeOf is, 1)
decreasing_by
  all_goals simp_wf
  all_goals apply Prod.Lex.left
  all_goals simp_arith
  all_goals
    have h1 : 0 < sizeOf (‹GoList›) := GoList.sizeOf_pos _
    omega
end

/-! Reader side.  Readers take the buffer and return the produced Go
value, the remaining buffer and the optional error; Go readers return a
typed zero value together with an error (binary.Read leaves the target
zeroed on a short read) and that value is preserved here.  Recursion is
driven by an explicit fuel counter (a pure modelling device: the Go
recursion is bounded by the buffer, and every theorem supplies ample
fuel). -/

/-- Data type codes registered in getSerializerToRead.  BytecodeType is
not among them: encoded bytecode cannot be read back. -/
def isKnownReadType (typ : Nat) : Bool :=
  typ = TraverserType || typ = StringType || typ = BigIntegerType || typ = LongType ||
  typ = IntType || typ = ShortType || typ = ByteType || typ = BooleanType ||
  typ = UUIDType || typ = FloatType || typ = DoubleType || typ = MapType || typ = ListType

/-- nullFlagReturn fields installed by getSerializerToRead: the sentinel
returned when the value flag marks null.  The numeric serializers store
the untyped Go constant 0 (a Go int); Traverser and String store "",
UUID stores uuid.Nil, Map and List store nil. -/
def nullFlagReturn (typ : Nat) : GoValue :=
  if typ = TraverserType then .vString []
  else if typ = StringType then .vString []
  else if typ = BigIntegerType then .vGoInt 0
  else if typ = LongType then .vGoInt 0
  else if typ = IntType then .vGoInt 0
  else if typ = ShortType then .vGoInt 0
  else if typ = ByteType then .vGoInt 0
  else if typ = BooleanType then .vGoInt 0
  else if typ = UUIDType then .vUUID (List.replicate 16 0)
  else if typ = FloatType then .vGoInt 0
  else if typ = DoubleType then .vGoInt 0
  else .vNull

/-- binary.Read of a `k`-byte signed big-endian integer: on a short
buffer the target stays zero, everything available is consumed and an
EOF error is returned. -/
def readSignedBE (k : Nat) (buf : List Nat) : Int × List Nat × Option String :=
  if buf.length < k then (0, buf.drop k, some errEOF)
  else (signedOfBE k (buf.take k), buf.drop k, none)

/-- binary.Read of a `k`-byte unsigned big-endian quantity (uint8 and
the IEEE-754 bit patterns of float32/float64). -/
def readUnsignedBE (k : Nat) (buf : List Nat) : Nat × List Nat × Option String :=
  if buf.length < k then (0, buf.drop k, some errEOF)
  else (beNat (buf.take k), buf.drop k, none)

/-- bytes.Buffer.Read into a zeroed `k`-byte slice: copies what is
available (the rest of the slice stays zero) and errors with io.EOF only
when the buffer was empty and `k` is positive. -/
def bytesBufferRead (k : Nat) (buf : List Nat) : List Nat × List Nat × Option String :=
  (buf.take k ++ List.replicate (k - buf.length) 0, buf.drop k,
    if 0 < k ∧ buf = [] then some errEOF else none)

/-- StringType reader closure from getSerializerToRead: {size:int32}
then `size` bytes read via bytes.Buffer.Read into make([]byte, size).
A negative size crashes make; a size larger than the remaining bytes
yields a zero-padded string with a nil error unless nothing at all
remained. -/
def stringReader (buf : List Nat) : GoValue × List Nat × Option String :=
  match readSignedBE 4 buf with
  | (_, rest, some e) => (.vNull, rest, some e)
  | (size, rest, none) =>
      if size < 0 then (.vNull, rest, some errMakeSliceNegative)
      else
        match bytesBufferRead size.toNat rest with
        | (bs, rest2, e) => (.vString bs, rest2, e)

/-- UUIDType reader closure: 16 raw bytes via bytes.Buffer.Read; on a
read error uuid.Nil is returned, and the uuid.FromBytes error is
discarded (it cannot fire on a 16-byte slice). -/
def uuidReader (buf : List Nat) : GoValue × List Nat × Option String :=
  match bytesBufferRead 16 buf with
  | (_, rest, some e) => (.vUUID (List.replicate 16 0), rest, some e)
  | (bs, rest, none) => (.vUUID bs, rest, none)

/-- bigIntReader from graphBinary.go: {size:int32} then `size` bytes
read one by one with binary.Read, interpreted by
getBigIntFromSignedBytes.  A negative size crashes make. -/
def bigIntReader (buf : List Nat) : GoValue × List Nat × Option String :=
  match readSignedBE 4 buf with
  | (_, rest, some e) => (.vNull, rest, some e)
  | (size, rest, none) =>
      if size < 0 then (.vNull, rest, some errMakeSliceNegative)
      else if rest.length < size.toNat then (.vNull, rest.drop size.toNat, some errEOF)
      else (.vBigInt (getBigIntFromSignedBytes (rest.take size.toNat)),
            rest.drop size.toNat, none)

/-- BooleanType reader closure: binary.Read of a bool is one byte,
true iff nonzero. -/
def booleanReader (buf : List Nat) : GoValue × List Nat × Option String :=
  match buf with
  | [] => (.vBool false, [], some errEOF)
  | b :: rest => (.vBool (decide (b ≠ 0)), rest, none)

/-- Whether the Go runtime can hash the dynamic value as a map key.
valMap[key] = val panics with "hash of unhashable type" when the key's
dynamic type is a slice ([]interface) or a map, and when it is a struct
(Traverser) whose interface field carries such a value; bytecode is a
struct of slices and equally unhashable.  Everything else the reader
can produce - nil, numbers, strings, the uuid byte array, *big.Int and
*Traverser pointers, floats - hashes fine. -/
def hashable : GoValue → Bool
  | .vList _ => false
  | .vMap _ => false
  | .vBytecode _ _ => false
  | .vTraverser _ v => hashable v
  | _ => true

/-- IEEE-754 NaN test on a float32 bit pattern: exponent all ones and a
nonzero mantissa. -/
def nan32 (bits : Nat) : Bool := (bits / 2 ^ 23) % 2 ^ 8 = 0xFF && bits % 2 ^ 23 ≠ 0

/-- IEEE-754 NaN test on a float64 bit pattern. -/
def nan64 (bits : Nat) : Bool := (bits / 2 ^ 52) % 2 ^ 11 = 0x7FF && bits % 2 ^ 52 ≠ 0

/-- Keys that Go's runtime == never matches to any decoded map key: NaN
floats (x == x is false for a NaN) and *big.Int keys, which compare as
pointers while the reader allocates a fresh *big.Int per decode so no
two decoded keys ever alias; a Traverser struct key compares its
interface field the same way. -/
def keyNeverEq : GoValue → Bool
  | .vFloat32 bits => nan32 bits
  | .vFloat64 bits => nan64 bits
  | .vBigInt _ => true
  | .vTraverser _ v => keyNeverEq v
  | _ => false

/-- Canonical form of a map key under Go's runtime ==: the two IEEE
zeros are equal (-0.0 == 0.0), so the negative-zero bit pattern is
normalized, recursively inside a Traverser struct's interface field;
every other key equality is structural. -/
def canonKey : GoValue → GoValue
  | .vFloat32 bits => .vFloat32 (if bits = 0x80000000 then 0 else bits)
  | .vFloat64 bits => .vFloat64 (if bits = 0x8000000000000000 then 0 else bits)
  | .vTraverser b v => .vTraverser b (canonKey v)
  | v => v

/-- Go's runtime == on two decoded (hashable) map keys, as the map
insertion valMap[key] = val applies it. -/
def goKeyEq (a b : GoValue) : Bool :=
  !keyNeverEq a && !keyNeverEq b && canonKey a = canonKey b

theorem goKeyEq_symm (a b : GoValue) : goKeyEq a b = goKeyEq b a := by
  simp only [goKeyEq, eq_comm, Bool.and_comm, Bool.and_left_comm]

/-- Go map insertion valMap[key] = val over the entry list, for a key
the runtime can hash (readPairsN guards the unhashable-key panic before
this point): replaces the value of an existing ==-equal key in place,
keeping the stored key, otherwise appends. -/
def mapPut : GoPairs → GoValue → GoValue → GoPairs
  | .nil, k, v => .cons k v .nil
  | .cons k0 v0 t, k, v =>
      if goKeyEq k0 k then .cons k0 v t else .cons k0 v0 (mapPut t k v)

mutual
/-- graphBinaryTypeSerializer.read: reads a fully-qualified value
{type_code}{value_flag}{value}.  NullType is handled inline (the
binary.Read error for the flag byte is ignored by the source, so an
exhausted buffer leaves isNull = 0 and fails the isNull check); unknown
type codes fail with the deserialize error. -/
def read : Nat → List Nat → GoValue × List Nat × Option String
  | 0, buf => (.vNull, buf, some errOutOfFuel)
  | fuel + 1, buf =>
    match buf with
    | [] => (.vNull, [], some errEOF)
    | c :: rest =>
        if c = NullType then
          match rest with
          | [] => (.vNull, [], some errNullTypeFlag)
          | f :: r2 => if f ≠ 1 then (.vNull, r2, some errNullTypeFlag) else (.vNull, r2, none)
        else if isKnownReadType c then readTypeValue fuel c rest true
        else (.vNull, rest, some errUnknownDeserialize)
termination_by fuel _ => (fuel, 1, 0)

/-- graphBinaryTypeSerializer.readTypeValue: when nullable, first reads
the value flag byte; the null flag returns the serializer's
nullFlagReturn sentinel, anything else continues with the reader. -/
def readTypeValue (fuel : Nat) (typ : Nat) (buf : List Nat) (nullable : Bool) :
    GoValue × List Nat × Option String :=
  if nullable then
    match buf with
    | [] => (.vNull, [], some errEOF)
    | f :: rest =>
        if f = valueFlagNull then (nullFlagReturn typ, rest, none)
        else typeReader fuel typ rest
  else typeReader fuel typ buf
termination_by (fuel, 5, 0)

/-- Dispatch to the reader closure getSerializerToRead installs for each
type code.  The final branch models the crash that a dispatch on a type
code missing from the registry would be (the callers either check the
registry or, in readValue, ignore the lookup error and call through a
nil serializer). -/
def typeReader (fuel : Nat) (typ : Nat) (buf : List Nat) :
    GoValue × List Nat × Option String :=
  if typ = TraverserType then traverserReader fuel buf
  else if typ = StringType then stringReader buf
  else if typ = BigIntegerType then bigIntReader buf
  else if typ = LongType then
    match readSignedBE 8 buf with
    | (n, rest, e) => (.vInt64 n, rest, e)
  else if typ = IntType then
    match readSignedBE 4 buf with
    | (n, rest, e) => (.vInt32 n, rest, e)
  else if typ = ShortType then
    match readSignedBE 2 buf with
    | (n, rest, e) => (.vShort n, rest, e)
  else if typ = ByteType then
    match readUnsignedBE 1 buf with
    | (n, rest, e) => (.vByte n, rest, e)
  else if typ = BooleanType then booleanReader buf
  else if typ = UUIDType then uuidReader buf
  else if typ = FloatType then
    match readUnsignedBE 4 buf with
    | (n, rest, e) => (.vFloat32 n, rest, e)
  else if typ = DoubleType then
    match readUnsignedBE 8 buf with
    | (n, rest, e) => (.vFloat64 n, rest, e)
  else if typ = MapType then mapReader fuel buf
  else if typ = ListType then listReader fuel buf
  else (.vNull, buf, some errNilSerializerUsed)
termination_by (fuel, 4, 0)

/-- TraverserType reader closure: {bulk:int64} then a fully-qualified
value. -/
def traverserReader (fuel : Nat) (buf : List Nat) : GoValue × List Nat × Option String :=
  match readSignedBE 8 buf with
  | (_, rest, some e) => (.vNull, rest, some e)
  | (bulk, rest, none) =>
      match read fuel rest with
      | (_, rest2, some e) => (.vNull, rest2, some e)
      | (v, rest2, none) => (.vTraverser bulk v, rest2, none)
termination_by (fuel, 3, 0)

/-- listReader from graphBinary.go: {size:int32} then int(size)
fully-qualified items (a negative size runs the loop zero times and
returns the nil slice with no error). -/
def listReader (fuel : Nat) (buf : List Nat) : GoValue × List Nat × Option String :=
  match readSignedBE 4 buf with
  | (_, rest, some e) => (.vNull, rest, some e)
  | (size, rest, none) =>
      match readN fuel size.toNat rest with
      | (_, rest2, some e) => (.vNull, rest2, some e)
      | (xs, rest2, none) => (.vList xs, rest2, none)
termination_by (fuel, 3, 0)

/-- Element loop of listReader. -/
def readN (fuel : Nat) : Nat → List Nat → GoList × List Nat × Option String
  | 0, buf => (.nil, buf, none)
  | n + 1, buf =>
      match read fuel buf with
      | (_, rest, some e) => (.nil, rest, some e)
      | (v, rest, none) =>
          match readN fuel n rest with
          | (xs, rest2, e) => (.cons v xs, rest2, e)
termination_by n _ => (fuel, 2, n)

/-- mapReader from graphBinary.go: {size:int32} then int(size) pairs of
fully-qualified key and value inserted with valMap[key] = val (a
negative size runs the loop zero times and returns the empty map). -/
def mapReader (fuel : Nat) (buf : List Nat) : GoValue × List Nat × Option String :=
  match readSignedBE 4 buf with
  | (_, rest, some e) => (.vNull, rest, some e)
  | (size, rest, none) =>
      match readPairsN fuel size.toNat rest .nil with
      | (_, rest2, some e) => (.vNull, rest2, some e)
      | (ps, rest2, none) => (.vMap ps, rest2, none)
termination_by (fuel, 3, 0)

/-- Entry loop of mapReader, accumulating into the map.  The insertion
valMap[key] = val panics with "hash of unhashable type" when the decoded
key is a slice or a map (every ListType or MapType key decodes to one);
the panic unwinds out of the whole decode and is carried as the
errUnhashableKey crash marker. -/
def readPairsN (fuel : Nat) : Nat → List Nat → GoPairs → GoPairs × List Nat × Option String
  | 0, buf, acc => (acc, buf, none)
  | n + 1, buf, acc =>
      match read fuel buf with
      | (_, rest, some e) => (acc, rest, some e)
      | (k, rest, none) =>
          match read fuel rest with
          | (_, rest2, some e) => (acc, rest2, some e)
          | (v, rest2, none) =>
              if hashable k then readPairsN fuel n rest2 (mapPut acc k v)
              else (acc, rest2, some errUnhashableKey)
termination_by n _ _ => (fuel, 2, n)
end

/-- The error strings that stand for Go runtime panics rather than for
returned errors: make with a negative length (String and BigInteger
readers), the map insertion on an unhashable key, and the method call
through a nil serializer.  A panic unwinds through every caller, so
code that discards a returned error - readValue's val, _ := below -
cannot swallow it. -/
def isPanicMarker : Option String → Bool
  | some e => e = errMakeSliceNegative || e = errUnhashableKey || e = errNilSerializerUsed
  | none => false

/-- graphBinaryTypeSerializer.readValue: checks the type code byte at
the head of the buffer, then calls readTypeValue and discards both the
serializer-lookup error and the readTypeValue error, returning whatever
value came back with a nil error.  A runtime panic inside the body read
(crash marker) is not a returned error and propagates past the discard.
An unknown (but matching) type code makes the discarded lookup return a
nil serializer and the method call on it crashes, which the last branch
records. -/
def readValue (fuel : Nat) (buf : List Nat) (typ : Nat) (nullable : Bool) :
    GoValue × List Nat × Option String :=
  match buf with
  | [] => (.vNull, [], some errEOF)
  | c :: rest =>
      if c ≠ typ then (.vNull, rest, some errWrongDataType)
      else if isKnownReadType typ then
        match readTypeValue fuel typ rest nullable with
        | (v, rest2, e) => if isPanicMarker e then (v, rest2, e) else (v, rest2, none)
      else (.vNull, rest, some errNilSerializerUsed)

/-! Round-trip infrastructure: the integer-type widening the decoder
performs, the well-formedness of a Go value, and a fuel bound. -/

mutual
/-- The documented integer-type widening of a fully-qualified decode:
a Go int and a uint32 come back as int64 (LongType) and a uint16 comes
back as int32 (IntType); everything else decodes to its own host type. -/
def widen : GoValue → GoValue
  | .vGoInt n => .vInt64 n
  | .vUInt32 n => .vInt64 (n : Int)
  | .vUInt16 n => .vInt32 (n : Int)
  | .vList xs => .vList (widenL xs)
  | .vMap ps => .vMap (widenP ps)
  | .vTraverser b v => .vTraverser b (widen v)
  | .vTraverserP b v => .vTraverserP b (widen v)
  | .vBytecode s t => .vBytecode s t
  | v => v

def widenL : GoList → GoList
  | .nil => .nil
  | .cons h t => .cons (widen h) (widenL t)

def widenP : GoPairs → GoPairs
  | .nil => .nil
  | .cons k v t => .cons (widen k) (widen v) (widenP t)
end

/-- Membership of a key in a pair list under Go's runtime key
equality, as the map insertion looks keys up. -/
def keyMem : GoPairs → GoValue → Bool
  | .nil, _ => false
  | .cons k0 _ t, k => goKeyEq k0 k || keyMem t k

/-- Key distinctness of a pair list after widening, under Go's runtime
key equality: no later key == an earlier one.  Go map keys are
pairwise-unequal as written, but two keys of different Go widths can
collide after decode widening, and two ==-equal float keys (the two
IEEE zeros) can hide behind distinct bit patterns. -/
def keysFreshP : GoPairs → Bool
  | .nil => true
  | .cons k _ t => !(keyMem t k) && keysFreshP t

/-- Every key of a pair list is hashable by the Go runtime, so the
decoder's map insertion does not panic on it. -/
def keysHashableP : GoPairs → Bool
  | .nil => true
  | .cons k _ t => hashable k && keysHashableP t

mutual
/-- Well-formedness of a Go value for the round-trip theorem: host-type
ranges hold (a Go value of that type cannot carry anything else),
lengths fit in an int32, and the constructors that cannot survive a
fully-qualified round trip (bool, bytecode, both traverser forms) do
not occur.  Map keys stay pairwise-unequal under Go's runtime key
equality after widening, and stay hashable after decoding (a slice- or
map-valued key panics the decoder's map insertion). -/
def rtGood : GoValue → Bool
  | .vNull => true
  | .vBool _ => false
  | .vByte n => n < 256
  | .vShort n => decide (-(2 ^ 15) ≤ n) && decide (n < 2 ^ 15)
  | .vInt32 n => decide (-(2 ^ 31) ≤ n) && decide (n < 2 ^ 31)
  | .vInt64 n => decide (-(2 ^ 63) ≤ n) && decide (n < 2 ^ 63)
  | .vGoInt n => decide (-(2 ^ 63) ≤ n) && decide (n < 2 ^ 63)
  | .vUInt16 n => n < 2 ^ 16
  | .vUInt32 n => n < 2 ^ 32
  | .vBigInt n => (getSignedBytesFromBigInt n).length < 2 ^ 31
  | .vFloat32 bits => bits < 2 ^ 32
  | .vFloat64 bits => bits < 2 ^ 64
  | .vString bs => bs.length < 2 ^ 31 && bs.all (· < 256)
  | .vUUID bs => bs.length = 16 && bs.all (· < 256)
  | .vList xs => xs.length < 2 ^ 31 && rtGoodL xs
  | .vMap ps => ps.length < 2 ^ 31 && rtGoodP ps && keysFreshP (widenP ps)
      && keysHashableP (widenP ps)
  | .vBytecode _ _ => false
  | .vTraverser _ _ => false
  | .vTraverserP _ _ => false

def rtGoodL : GoList → Bool
  | .nil => true
  | .cons h t => rtGood h && rtGoodL t

def rtGoodP : GoPairs → Bool
  | .nil => true
  | .cons k v t => rtGood k && rtGood v && rtGoodP t
end

mutual
/-- Fuel bound for `read`: the number of nodes of the value tree
dominates the recursion depth the reader needs. -/
def cnt : GoValue → Nat
  | .vList xs => 1 + cntL xs
  | .vMap ps => 1 + cntP ps
  | .vBytecode s t => 1 + cntI s + cntI t
  | .vTraverser _ v => 1 + cnt v
  | .vTraverserP _ v => 1 + cnt v
  | _ => 1

def cntL : GoList → Nat
  | .nil => 0
  | .cons h t => cnt h + cntL t

def cntP : GoPairs → Nat
  | .nil => 0
  | .cons k v t => cnt k + cnt v + cntP t

def cntI : InstrList → Nat
  | .nil => 0
  | .cons _ args t => cntL args + cntI t
end

/-! Round trip of the signed big-integer byte representation. -/

theorem beNat_cons (b : Nat) (t : List Nat) :
    beNat (b :: t) = b * 256 ^ t.length + beNat t := rfl

theorem beNat_strip (l : List Nat) :
    beNat (stripOneLeadingZero l) = beNat l := by
  match l with
  | [] => rfl
  | 0 :: rest => simp [stripOneLeadingZero, beNat_cons]
  | (b + 1) :: rest => rfl

set_option maxRecDepth 4096 in
theorem land128 : ∀ b, b < 256 → ((b &&& 128 = 0) ↔ b < 128) := by decide

theorem mul_add_cancel_unique (a b r s P : Nat) (hr : r < P) (hs : s < P)
    (h : a * P + r = b * P + s) : a = b ∧ r = s := by
  have hab : a = b := by
    by_contra hne
    rcases Nat.lt_or_ge a b with hlt | hge
    · have : a + 1 ≤ b := hlt
      nlinarith
    · have hgt : b < a := lt_of_le_of_ne hge (Ne.symm hne)
      have : b + 1 ≤ a := hgt
      nlinarith
  subst hab
  omega

theorem natBytes_decomp (k m : Nat) (h1 : 256 ^ k ≤ m) (h2 : m < 256 ^ (k + 1)) :
    ∃ t, natBytes m = (m / 256 ^ k) :: t ∧ t.length = k ∧ beNat t = m % 256 ^ k ∧
      ∀ x ∈ t, x < 256 := by
  have hlen := natBytes_length k m h1 h2
  match hB : natBytes m with
  | [] => simp [hB] at hlen
  | h :: t =>
      have htlen : t.length = k := by
        have := hlen
        rw [hB] at this
        simpa using this
      have hbytes : ∀ x ∈ h :: t, x < 256 := by
        rw [← hB]; exact natBytes_mem_lt m
      have htb : ∀ x ∈ t, x < 256 := fun x hx => hbytes x (by simp [hx])
      have hval : h * 256 ^ k + beNat t = m := by
        have := beNat_natBytes m
        rw [hB, beNat_cons, htlen] at this
        exact this
      have hrem : beNat t < 256 ^ k := by
        have := beNat_lt t htb
        rwa [htlen] at this
      have hmm := Nat.mod_add_div' m (256 ^ k)
      have hmodlt : m % 256 ^ k < 256 ^ k :=
        Nat.mod_lt _ (Nat.pos_pow_of_pos _ (by norm_num))
      rcases mul_add_cancel_unique h (m / 256 ^ k) (beNat t) (m % 256 ^ k) (256 ^ k)
        hrem hmodlt (by omega) with ⟨hq, hr⟩
      exact ⟨t, by rw [hq], htlen, hr, htb⟩

theorem getBigIntFromSignedBytes_highbit (b0 : Nat) (bs : List Nat)
    (hb0 : b0 < 256) (hbs : ∀ x ∈ bs, x < 256) (hhi : 128 ≤ b0) :
    getBigIntFromSignedBytes (b0 :: bs) =
      (beNat (b0 :: bs) : Int) - ((256 ^ (bs.length + 1) : Nat) : Int) := by
  set L := bs.length + 1 with hL
  set v := beNat (b0 :: bs) with hv
  have hvlo : 1 ≤ v := by
    rw [hv, beNat_cons]
    have := Nat.pos_pow_of_pos bs.length (show 0 < 256 by norm_num)
    nlinarith
  have hvhi : v < 256 ^ L := by
    have hall : ∀ x ∈ b0 :: bs, x < 256 := by
      intro x hx
      rcases List.mem_cons.mp hx with h | h
      · omega
      · exact hbs x h
    have := beNat_lt (b0 :: bs) hall
    simpa [hv, hL] using this
  have hland : ¬ (b0 &&& 0x80 = 0) := by
    have := land128 b0 hb0
    omega
  have hps : 256 ^ (L + 1) = 256 * 256 ^ L := by ring
  have hpow : (2 : Int) ^ ((L + 1) * 8) = ((256 ^ (L + 1) : Nat) : Int) := by
    push_cast
    rw [mul_comm (L + 1) 8, pow_mul]
    norm_num
  have hm2 : ((2 : Int) ^ ((L + 1) * 8) - (v : Int)).natAbs = 256 ^ (L + 1) - v := by
    rw [hpow]
    have h1 : v ≤ 256 ^ (L + 1) := by omega
    omega
  have hd1 : 256 ^ L ≤ 256 ^ (L + 1) - v := by omega
  have hd2 : 256 ^ (L + 1) - v < 256 ^ (L + 1) := by omega
  rcases natBytes_decomp L (256 ^ (L + 1) - v) hd1 hd2 with ⟨t, hT, htlen, htval, htb⟩
  have hmod : (256 ^ (L + 1) - v) % 256 ^ L = 256 ^ L - v := by
    have he : 256 ^ (L + 1) - v = (256 ^ L - v) + 255 * 256 ^ L := by omega
    rw [he, Nat.add_mul_mod_self_right]
    exact Nat.mod_eq_of_lt (by omega)
  have hlen8 : ((b0 :: bs).length * 8 / 8 + 1) * 8 = (L + 1) * 8 := by
    have : (b0 :: bs).length = L := by simp [hL]
    rw [this]
    omega
  show getBigIntFromSignedBytes (b0 :: bs) = _
  unfold getBigIntFromSignedBytes
  simp only [if_neg hland, hlen8, ← hv, hm2, hT, List.tail_cons, beNat_strip, htval, hmod]
  omega

theorem getSignedBytesFromBigInt_neg_spec (n : Int) (hn : n < 0) :
    ∃ b0 bs, getSignedBytesFromBigInt n = b0 :: bs ∧ b0 < 256 ∧
      (∀ x ∈ bs, x < 256) ∧ 128 ≤ b0 ∧
      (beNat (b0 :: bs) : Int) = n + ((256 ^ (bs.length + 1) : Nat) : Int) := by
  set a := n.natAbs with ha
  have ha1 : 1 ≤ a := by omega
  set q := bitLen a / 8 with hq
  have habl : a < 2 ^ (8 * q + 7) := by
    have h1 : a < 2 ^ bitLen a := by
      rw [bitLen, if_neg (by omega)]
      exact Nat.lt_log2_self
    have h2 : bitLen a ≤ 8 * q + 7 := by omega
    exact lt_of_lt_of_le h1 (Nat.pow_le_pow_right (by norm_num) h2)
  have hp87 : (2 : Nat) ^ (8 * q + 7) = 128 * 256 ^ q := by
    have h28 : (2 : Nat) ^ (8 * q) = 256 ^ q := by
      rw [pow_mul]
      norm_num
    rw [pow_add, h28]
    ring
  have hp88 : (2 : Nat) ^ ((q + 1) * 8) = 256 ^ (q + 1) := by
    rw [mul_comm (q + 1) 8, pow_mul]
    norm_num
  have hps : 256 ^ (q + 1) = 256 * 256 ^ q := by ring
  have hq0 : 0 < 256 ^ q := Nat.pos_pow_of_pos _ (by norm_num)
  have hM : (n + 2 ^ ((bitLen n.natAbs / 8 + 1) * 8)).toNat = 256 ^ (q + 1) - a := by
    have hc : ((2 : Int) ^ ((q + 1) * 8)) = ((256 ^ (q + 1) : Nat) : Int) := by
      push_cast
      rw [mul_comm (q + 1) 8, pow_mul]
      norm_num
    rw [← ha, ← hq, hc]
    omega
  set M := 256 ^ (q + 1) - a with hMdef
  have hMlo : 128 * 256 ^ q < M := by omega
  have hMhi : M < 256 ^ (q + 1) := by omega
  rcases natBytes_decomp q M (by omega) hMhi with ⟨t, hT, htlen, htval, htb⟩
  have hh0lo : 128 ≤ M / 256 ^ q := by
    rw [Nat.le_div_iff_mul_le hq0]
    omega
  have hh0hi : M / 256 ^ q < 256 := by
    rw [Nat.div_lt_iff_lt_mul hq0]
    omega
  have hMsum : M / 256 ^ q * 256 ^ q + M % 256 ^ q = M := by
    have := Nat.mod_add_div' M (256 ^ q)
    omega
  have hwriter : getSignedBytesFromBigInt n =
      match natBytes (n + 2 ^ ((bitLen n.natAbs / 8 + 1) * 8)).toNat with
      | b0 :: b1 :: rest =>
          if b0 = 0xff ∧ b1 &&& 0x80 ≠ 0 then b1 :: rest else b0 :: b1 :: rest
      | other => other := by
    unfold getSignedBytesFromBigInt
    rw [if_neg (by omega), if_pos hn]
  rw [hM] at hwriter
  match hTT : t, htval, htlen, htb with
  | [], htval, htlen, htb =>
      refine ⟨M / 256 ^ q, [], ?_, hh0hi, by simp, hh0lo, ?_⟩
      · simp [hwriter, hT]
      · have hq00 : q = 0 := by simpa using htlen.symm
        have : M / 256 ^ q = M := by
          rw [hq00]
          simp
        rw [this]
        simp only [beNat_cons, List.length_nil, pow_zero, beNat]
        rw [hq00] at hMdef
        omega
  | t1 :: trest, htval, htlen, htb =>
      have ht1 : t1 < 256 := htb t1 (by simp)
      by_cases hstrip : M / 256 ^ q = 0xff ∧ t1 &&& 0x80 ≠ 0
      · -- the redundant 0xff byte is stripped
        have ht1hi : 128 ≤ t1 := by
          have := land128 t1 ht1
          omega
        refine ⟨t1, trest, ?_, ht1, fun x hx => htb x (by simp [hx]), ht1hi, ?_⟩
        · simp only [hwriter, hT]
          rw [if_pos hstrip]
        · have hlen : trest.length + 1 = q := by simpa using htlen
          rw [htval, hlen]
          have h255 : M / 256 ^ q = 255 := hstrip.1
          rw [h255] at hMsum
          omega
      · refine ⟨M / 256 ^ q, t1 :: trest, ?_, hh0hi, htb, hh0lo, ?_⟩
        · simp only [hwriter, hT]
          rw [if_neg hstrip]
        · rw [beNat_cons, htval, htlen]
          omega

theorem getBigIntFromSignedBytes_lowbit (b0 : Nat) (bs : List Nat)
    (h : b0 &&& 0x80 = 0) :
    getBigIntFromSignedBytes (b0 :: bs) = (beNat (b0 :: bs) : Int) := by
  unfold getBigIntFromSignedBytes
  simp [h]

/-- The codec's signed big-integer byte representation round-trips:
reading back the bytes getSignedBytesFromBigInt produces recovers the
integer. -/
theorem bigIntRoundtrip (n : Int) :
    getBigIntFromSignedBytes (getSignedBytesFromBigInt n) = n := by
  rcases lt_trichotomy n 0 with hn | hn | hn
  · rcases getSignedBytesFromBigInt_neg_spec n hn with ⟨b0, bs, hw, h1, h2, h3, h4⟩
    rw [hw, getBigIntFromSignedBytes_highbit b0 bs h1 h2 h3]
    omega
  · subst hn
    rfl
  · have ha : n.toNat ≠ 0 := by omega
    have hw : getSignedBytesFromBigInt n =
        match natBytes n.toNat with
        | [] => []
        | b0 :: bs => if b0 &&& 0x80 ≠ 0 then 0 :: b0 :: bs else b0 :: bs := by
      unfold getSignedBytesFromBigInt
      rw [if_pos hn]
    match hB : natBytes n.toNat with
    | [] =>
        exfalso
        have := beNat_natBytes n.toNat
        rw [hB] at this
        simp [beNat] at this
        omega
    | c :: cs =>
        have hc : c < 256 := natBytes_mem_lt n.toNat c (by rw [hB]; simp)
        have hbe : beNat (c :: cs) = n.toNat := by rw [← hB]; exact beNat_natBytes _
        rw [hw]
        simp only [hB]
        by_cases hhi : c &&& 0x80 ≠ 0
        · rw [if_pos hhi,
            getBigIntFromSignedBytes_lowbit 0 (c :: cs) (by simp), beNat_cons, hbe]
          simp
          omega
        · rw [if_neg hhi,
            getBigIntFromSignedBytes_lowbit c cs (by omega), hbe]
          omega

/-! Reading writer output placed in front of arbitrary trailing bytes. -/

theorem readSignedBE_append (k : Nat) (n : Int) (rest : List Nat) (hk : 0 < k)
    (h1 : -(((256 ^ k / 2 : Nat)) : Int) ≤ n) (h2 : n < ((256 ^ k / 2 : Nat) : Int)) :
    readSignedBE k (intBEBytes k n ++ rest) = (n, rest, none) := by
  unfold readSignedBE
  have hlen : (intBEBytes k n ++ rest).length = k + rest.length := by simp
  rw [if_neg (by omega)]
  have ht : (intBEBytes k n ++ rest).take k = intBEBytes k n := by
    have h := List.take_left (intBEBytes k n) rest
    rwa [intBEBytes_length] at h
  have hd : (intBEBytes k n ++ rest).drop k = rest := by
    have h := List.drop_left (intBEBytes k n) rest
    rwa [intBEBytes_length] at h
  rw [ht, hd, signedOfBE_intBEBytes k n hk h1 h2]

theorem readUnsignedBE_append (k b : Nat) (rest : List Nat) (hb : b < 256 ^ k) :
    readUnsignedBE k (padBE k b ++ rest) = (b, rest, none) := by
  unfold readUnsignedBE
  have hlen : (padBE k b ++ rest).length = k + rest.length := by simp
  rw [if_neg (by omega)]
  have ht : (padBE k b ++ rest).take k = padBE k b := by
    have h := List.take_left (padBE k b) rest
    rwa [padBE_length] at h
  have hd : (padBE k b ++ rest).drop k = rest := by
    have h := List.drop_left (padBE k b) rest
    rwa [padBE_length] at h
  rw [ht, hd, beNat_padBE, Nat.mod_eq_of_lt hb]

theorem bytesBufferRead_append (l rest : List Nat) :
    bytesBufferRead l.length (l ++ rest) = (l, rest, none) := by
  unfold bytesBufferRead
  have hlen : (l ++ rest).length = l.length + rest.length := by simp
  rw [List.take_left, List.drop_left]
  have hz : l.length - (l ++ rest).length = 0 := by omega
  rw [hz]
  simp only [List.replicate_zero, List.append_nil]
  rw [if_neg ?side]
  case side =>
    rintro ⟨hpos, hemp⟩
    rw [hemp] at hlen
    simp at hlen
    omega

/-- The fully-qualified frame a non-null write produces: type code, the
none value flag, then the per-type value bytes, with the writer's error
passed through. -/
theorem write_fq (v : GoValue) (code : Nat) (hnn : v ≠ .vNull)
    (hc : getSerializerToWriteDataType v = some code) :
    write v = (code :: valueFlagNone :: (typeWriter v).1, (typeWriter v).2) := by
  unfold write
  rw [if_neg hnn, hc]
  unfold seqW writeTypeValue
  rw [if_neg hnn]
  simp only [if_pos rfl]
  unfold seqW
  match htw : typeWriter v with
  | (b, some e) => simp
  | (b, none) => simp

/-- Reading a fully-qualified frame with a known non-null type code
dispatches to the per-type reader after consuming code and flag. -/
theorem read_fq (f : Nat) (code : Nat) (body : List Nat)
    (h1 : ¬ code = NullType) (h2 : isKnownReadType code = true) :
    read (f + 1) (code :: valueFlagNone :: body) = typeReader f code body := by
  show read (f + 1) (code :: 0 :: body) = _
  unfold read
  simp only [if_neg h1, if_pos h2]
  unfold readTypeValue
  simp [valueFlagNull]

/-! The exact shape mapReader's insertion loop produces. -/

/-- Folding mapPut over a list of decoded entries, as the mapReader loop
does. -/
def mapPutAll : GoPairs → GoPairs → GoPairs
  | acc, .nil => acc
  | acc, .cons k v t => mapPutAll (mapPut acc k v) t

/-- Appending two entry lists. -/
def GoPairs.append : GoPairs → GoPairs → GoPairs
  | .nil, ys => ys
  | .cons k v t, ys => .cons k v (t.append ys)

/-- No key of the first entry list occurs in the second. -/
def noKeyIn : GoPairs → GoPairs → Bool
  | .nil, _ => true
  | .cons k _ t, acc => !(keyMem acc k) && noKeyIn t acc

theorem append_nil_right : ∀ (acc : GoPairs), acc.append .nil = acc
  | .nil => rfl
  | .cons k v t => by simp only [GoPairs.append, append_nil_right t]

theorem keyMem_mapPut_imp : ∀ (acc : GoPairs) (k v k' : GoValue),
    keyMem (mapPut acc k v) k' = true → keyMem acc k' = true ∨ goKeyEq k k' = true
  | .nil, k, v, k' => by
      intro hm
      right
      simpa [mapPut, keyMem] using hm
  | .cons k0 v0 t, k, v, k' => by
      intro hm
      by_cases h : goKeyEq k0 k = true
      · left
        simp only [mapPut, h, if_true, keyMem] at hm
        simpa [keyMem] using hm
      · simp only [mapPut, h, if_false, keyMem, Bool.or_eq_true] at hm
        rcases hm with h1 | h2
        · left; simp [keyMem, h1]
        · rcases keyMem_mapPut_imp t k v k' h2 with h3 | h3
          · left; simp [keyMem, h3]
          · right; exact h3

theorem mapPut_notMem : ∀ (acc : GoPairs) (k v : GoValue), keyMem acc k = false →
    mapPut acc k v = acc.append (.cons k v .nil)
  | .nil, k, v, _ => rfl
  | .cons k0 v0 t, k, v, h => by
      simp only [keyMem, Bool.or_eq_false_iff] at h
      simp only [mapPut, h.1, Bool.false_eq_true, if_false, GoPairs.append]
      rw [mapPut_notMem t k v h.2]

theorem noKeyIn_mapPut : ∀ (ps : GoPairs) (acc : GoPairs) (k v : GoValue),
    noKeyIn ps acc = true → keyMem ps k = false → noKeyIn ps (mapPut acc k v) = true
  | .nil, _, _, _, _, _ => rfl
  | .cons k0 v0 t, acc, k, v, h1, h2 => by
      simp only [noKeyIn, Bool.and_eq_true, Bool.not_eq_true'] at h1 ⊢
      simp only [keyMem, Bool.or_eq_false_iff] at h2
      refine ⟨?_, noKeyIn_mapPut t acc k v h1.2 h2.2⟩
      cases hm : keyMem (mapPut acc k v) k0 with
      | false => rfl
      | true =>
          exfalso
          rcases keyMem_mapPut_imp acc k v k0 hm with h3 | h3
          · rw [h1.1] at h3; exact Bool.false_ne_true h3
          · rw [goKeyEq_symm, h2.1] at h3; exact Bool.false_ne_true h3

theorem append_cons_assoc : ∀ (acc : GoPairs) (k v : GoValue) (t : GoPairs),
    (acc.append (.cons k v .nil)).append t = acc.append (.cons k v t)
  | .nil, _, _, _ => rfl
  | .cons k0 v0 a, k, v, t => by
      simp only [GoPairs.append, append_cons_assoc a k v t]

theorem mapPutAll_fresh : ∀ (ps : GoPairs) (acc : GoPairs), keysFreshP ps = true →
    noKeyIn ps acc = true → mapPutAll acc ps = acc.append ps
  | .nil, acc, _, _ => by
      show acc = acc.append .nil
      exact (append_nil_right acc).symm
  | .cons k v t, acc, h1, h2 => by
      simp only [keysFreshP, Bool.and_eq_true, Bool.not_eq_true'] at h1
      simp only [noKeyIn, Bool.and_eq_true, Bool.not_eq_true'] at h2
      show mapPutAll (mapPut acc k v) t = _
      rw [mapPutAll_fresh t (mapPut acc k v) h1.2 (noKeyIn_mapPut t acc k v h2.2 h1.1),
        mapPut_notMem acc k v h2.1, append_cons_assoc]

theorem noKeyIn_nil : ∀ (ps : GoPairs), noKeyIn ps .nil = true
  | .nil => rfl
  | .cons k v t => by
      simp only [noKeyIn, keyMem, noKeyIn_nil t, Bool.not_false, Bool.and_self]

theorem mapPutAll_nil (ps : GoPairs) (h : keysFreshP ps = true) :
    mapPutAll .nil ps = ps := by
  rw [mapPutAll_fresh ps .nil h (noKeyIn_nil ps)]
  rfl

theorem cnt_pos : ∀ v : GoValue, 1 ≤ cnt v := by
  intro v
  cases v <;> simp [cnt] <;> omega

mutual
/-- Round trip of the fully-qualified codec: writing any well-formed
value whose constructors survive the trip (no bool, no bytecode, no
traverser) and reading the bytes back yields the value up to the
documented integer widening, consuming exactly the written bytes, and
the write itself succeeds. -/
theorem write_rt : ∀ (v : GoValue) (rest : List Nat) (fuel : Nat),
    rtGood v = true → cnt v ≤ fuel →
    read fuel ((write v).1 ++ rest) = (widen v, rest, none) ∧ (write v).2 = none
  | .vNull, rest, fuel, _, hf => by
      obtain ⟨f, rfl⟩ : ∃ f, fuel = f + 1 :=
        ⟨fuel - 1, by have h1 : cnt .vNull = 1 := rfl; omega⟩
      have hw : write .vNull = (nullBytes, none) := by simp [write]
      rw [hw]
      refine ⟨?_, rfl⟩
      show read (f + 1) (0xFE :: 1 :: rest) = (widen .vNull, rest, none)
      unfold read
      simp [NullType, widen]
  | .vBool b, _, _, hg, _ => by simp [rtGood] at hg
  | .vBytecode s t, _, _, hg, _ => by simp [rtGood] at hg
  | .vTraverser b v, _, _, hg, _ => by simp [rtGood] at hg
  | .vTraverserP b v, _, _, hg, _ => by simp [rtGood] at hg
  | .vByte n, rest, fuel, hg, hf => by
      have hr : n < 256 := by simpa [rtGood] using hg
      obtain ⟨f, rfl⟩ : ∃ f, fuel = f + 1 :=
        ⟨fuel - 1, by have h1 : cnt (.vByte n) = 1 := rfl; omega⟩
      have htw : typeWriter (.vByte n) = (padBE 1 n, none) := by
        simp [typeWriter, padBE]
      have hw : write (.vByte n) = (ByteType :: valueFlagNone :: padBE 1 n, none) := by
        rw [write_fq (.vByte n) ByteType (by simp) rfl, htw]
      rw [hw]
      refine ⟨?_, rfl⟩
      show read (f + 1) (ByteType :: valueFlagNone :: (padBE 1 n ++ rest)) = _
      rw [read_fq f ByteType _ (by decide) (by decide)]
      unfold typeReader
      norm_num [TraverserType, StringType, BigIntegerType, LongType, IntType,
        ShortType, ByteType]
      rw [readUnsignedBE_append 1 n rest (by simpa using hr)]
      simp [widen]
  | .vShort n, rest, fuel, hg, hf => by
      have hr : -(2 ^ 15) ≤ n ∧ n < 2 ^ 15 := by simpa [rtGood] using hg
      obtain ⟨f, rfl⟩ : ∃ f, fuel = f + 1 :=
        ⟨fuel - 1, by have h1 : cnt (.vShort n) = 1 := rfl; omega⟩
      have htw : typeWriter (.vShort n) = (intBEBytes 2 n, none) := by
        simp [typeWriter]
      have hw : write (.vShort n) = (ShortType :: valueFlagNone :: intBEBytes 2 n, none) := by
        rw [write_fq (.vShort n) ShortType (by simp) rfl, htw]
      rw [hw]
      refine ⟨?_, rfl⟩
      show read (f + 1) (ShortType :: valueFlagNone :: (intBEBytes 2 n ++ rest)) = _
      rw [read_fq f ShortType _ (by decide) (by decide)]
      unfold typeReader
      norm_num [TraverserType, StringType, BigIntegerType, LongType, IntType,
        ShortType]
      rw [readSignedBE_append 2 n rest (by norm_num) (by norm_num; omega)
        (by norm_num; omega)]
      simp [widen]
  | .vInt32 n, rest, fuel, hg, hf => by
      have hr : -(2 ^ 31) ≤ n ∧ n < 2 ^ 31 := by simpa [rtGood] using hg
      obtain ⟨f, rfl⟩ : ∃ f, fuel = f + 1 :=
        ⟨fuel - 1, by have h1 : cnt (.vInt32 n) = 1 := rfl; omega⟩
      have htw : typeWriter (.vInt32 n) = (intBEBytes 4 n, none) := by
        simp [typeWriter]
      have hw : write (.vInt32 n) = (IntType :: valueFlagNone :: intBEBytes 4 n, none) := by
        rw [write_fq (.vInt32 n) IntType (by simp) rfl, htw]
      rw [hw]
      refine ⟨?_, rfl⟩
      show read (f + 1) (IntType :: valueFlagNone :: (intBEBytes 4 n ++ rest)) = _
      rw [read_fq f IntType _ (by decide) (by decide)]
      unfold typeReader
      norm_num [TraverserType, StringType, BigIntegerType, LongType, IntType]
      rw [readSignedBE_append 4 n rest (by norm_num) (by norm_num; omega)
        (by norm_num; omega)]
      simp [widen]
  | .vUInt16 n, rest, fuel, hg, hf => by
      have hr : n < 2 ^ 16 := by simpa [rtGood] using hg
      obtain ⟨f, rfl⟩ : ∃ f, fuel = f + 1 :=
        ⟨fuel - 1, by have h1 : cnt (.vUInt16 n) = 1 := rfl; omega⟩
      have htw : typeWriter (.vUInt16 n) = (intBEBytes 4 (n : Int), none) := by
        simp [typeWriter]
      have hw : write (.vUInt16 n) =
          (IntType :: valueFlagNone :: intBEBytes 4 (n : Int), none) := by
        rw [write_fq (.vUInt16 n) IntType (by simp) rfl, htw]
      rw [hw]
      refine ⟨?_, rfl⟩
      show read (f + 1) (IntType :: valueFlagNone :: (intBEBytes 4 (n : Int) ++ rest)) = _
      rw [read_fq f IntType _ (by decide) (by decide)]
      unfold typeReader
      norm_num [TraverserType, StringType, BigIntegerType, LongType, IntType]
      rw [readSignedBE_append 4 (n : Int) rest (by norm_num) (by norm_num; omega)
        (by norm_num; omega)]
      simp [widen]
  | .vInt64 n, rest, fuel, hg, hf => by
      have hr : -(2 ^ 63) ≤ n ∧ n < 2 ^ 63 := by simpa [rtGood] using hg
      obtain ⟨f, rfl⟩ : ∃ f, fuel = f + 1 :=
        ⟨fuel - 1, by have h1 : cnt (.vInt64 n) = 1 := rfl; omega⟩
      have htw : typeWriter (.vInt64 n) = (intBEBytes 8 n, none) := by
        simp [typeWriter]
      have hw : write (.vInt64 n) = (LongType :: valueFlagNone :: intBEBytes 8 n, none) := by
        rw [write_fq (.vInt64 n) LongType (by simp) rfl, htw]
      rw [hw]
      refine ⟨?_, rfl⟩
      show read (f + 1) (LongType :: valueFlagNone :: (intBEBytes 8 n ++ rest)) = _
      rw [read_fq f LongType _ (by decide) (by decide)]
      unfold typeReader
      norm_num [TraverserType, StringType, BigIntegerType, LongType]
      rw [readSignedBE_append 8 n rest (by norm_num) (by norm_num; omega)
        (by norm_num; omega)]
      simp [widen]
  | .vGoInt n, rest, fuel, hg, hf => by
      have hr : -(2 ^ 63) ≤ n ∧ n < 2 ^ 63 := by simpa [rtGood] using hg
      obtain ⟨f, rfl⟩ : ∃ f, fuel = f + 1 :=
        ⟨fuel - 1, by have h1 : cnt (.vGoInt n) = 1 := rfl; omega⟩
      have htw : typeWriter (.vGoInt n) = (intBEBytes 8 n, none) := by
        simp [typeWriter]
      have hw : write (.vGoInt n) = (LongType :: valueFlagNone :: intBEBytes 8 n, none) := by
        rw [write_fq (.vGoInt n) LongType (by simp) rfl, htw]
      rw [hw]
      refine ⟨?_, rfl⟩
      show read (f + 1) (LongType :: valueFlagNone :: (intBEBytes 8 n ++ rest)) = _
      rw [read_fq f LongType _ (by decide) (by decide)]
      unfold typeReader
      norm_num [TraverserType, StringType, BigIntegerType, LongType]
      rw [readSignedBE_append 8 n rest (by norm_num) (by norm_num; omega)
        (by norm_num; omega)]
      simp [widen]
  | .vUInt32 n, rest, fuel, hg, hf => by
      have hr : n < 2 ^ 32 := by simpa [rtGood] using hg
      obtain ⟨f, rfl⟩ : ∃ f, fuel = f + 1 :=
        ⟨fuel - 1, by have h1 : cnt (.vUInt32 n) = 1 := rfl; omega⟩
      have htw : typeWriter (.vUInt32 n) = (intBEBytes 8 (n : Int), none) := by
        simp [typeWriter]
      have hw : write (.vUInt32 n) =
          (LongType :: valueFlagNone :: intBEBytes 8 (n : Int), none) := by
        rw [write_fq (.vUInt32 n) LongType (by simp) rfl, htw]
      rw [hw]
      refine ⟨?_, rfl⟩
      show read (f + 1) (LongType :: valueFlagNone :: (intBEBytes 8 (n : Int) ++ rest)) = _
      rw [read_fq f LongType _ (by decide) (by decide)]
      unfold typeReader
      norm_num [TraverserType, StringType, BigIntegerType, LongType]
      rw [readSignedBE_append 8 (n : Int) rest (by norm_num) (by norm_num; omega)
        (by norm_num; omega)]
      simp [widen]
  | .vFloat32 bits, rest, fuel, hg, hf => by
      have hr : bits < 2 ^ 32 := by simpa [rtGood] using hg
      obtain ⟨f, rfl⟩ : ∃ f, fuel = f + 1 :=
        ⟨fuel - 1, by have h1 : cnt (.vFloat32 bits) = 1 := rfl; omega⟩
      have htw : typeWriter (.vFloat32 bits) = (padBE 4 bits, none) := by
        simp [typeWriter]
      have hw : write (.vFloat32 bits) =
          (FloatType :: valueFlagNone :: padBE 4 bits, none) := by
        rw [write_fq (.vFloat32 bits) FloatType (by simp) rfl, htw]
      rw [hw]
      refine ⟨?_, rfl⟩
      show read (f + 1) (FloatType :: valueFlagNone :: (padBE 4 bits ++ rest)) = _
      rw [read_fq f FloatType _ (by decide) (by decide)]
      unfold typeReader
      norm_num [TraverserType, StringType, BigIntegerType, LongType, IntType,
        ShortType, ByteType, BooleanType, UUIDType, FloatType]
      rw [readUnsignedBE_append 4 bits rest (by norm_num; omega)]
      simp [widen]
  | .vFloat64 bits, rest, fuel, hg, hf => by
      have hr : bits < 2 ^ 64 := by simpa [rtGood] using hg
      obtain ⟨f, rfl⟩ : ∃ f, fuel = f + 1 :=
        ⟨fuel - 1, by have h1 : cnt (.vFloat64 bits) = 1 := rfl; omega⟩
      have htw : typeWriter (.vFloat64 bits) = (padBE 8 bits, none) := by
        simp [typeWriter]
      have hw : write (.vFloat64 bits) =
          (DoubleType :: valueFlagNone :: padBE 8 bits, none) := by
        rw [write_fq (.vFloat64 bits) DoubleType (by simp) rfl, htw]
      rw [hw]
      refine ⟨?_, rfl⟩
      show read (f + 1) (DoubleType :: valueFlagNone :: (padBE 8 bits ++ rest)) = _
      rw [read_fq f DoubleType _ (by decide) (by decide)]
      unfold typeReader
      norm_num [TraverserType, StringType, BigIntegerType, LongType, IntType,
        ShortType, ByteType, BooleanType, UUIDType, FloatType, DoubleType]
      rw [readUnsignedBE_append 8 bits rest (by norm_num; omega)]
      simp [widen]
  | .vUUID bs, rest, fuel, hg, hf => by
      have hr : bs.length = 16 := by
        have h2 := hg
        simp [rtGood] at h2
        exact h2.1
      obtain ⟨f, rfl⟩ : ∃ f, fuel = f + 1 :=
        ⟨fuel - 1, by have h1 : cnt (.vUUID bs) = 1 := rfl; omega⟩
      have htw : typeWriter (.vUUID bs) = (bs, none) := by
        simp [typeWriter]
      have hw : write (.vUUID bs) = (UUIDType :: valueFlagNone :: bs, none) := by
        rw [write_fq (.vUUID bs) UUIDType (by simp) rfl, htw]
      rw [hw]
      refine ⟨?_, rfl⟩
      show read (f + 1) (UUIDType :: valueFlagNone :: (bs ++ rest)) = _
      rw [read_fq f UUIDType _ (by decide) (by decide)]
      unfold typeReader
      norm_num [TraverserType, StringType, BigIntegerType, LongType, IntType,
        ShortType, ByteType, BooleanType, UUIDType]
      unfold uuidReader
      rw [show (16 : Nat) = bs.length from hr.symm, bytesBufferRead_append]
      simp [widen]
  | .vString bs, rest, fuel, hg, hf => by
      have hr : bs.length < 2 ^ 31 := by
        have h2 := hg
        simp [rtGood] at h2
        exact h2.1
      obtain ⟨f, rfl⟩ : ∃ f, fuel = f + 1 :=
        ⟨fuel - 1, by have h1 : cnt (.vString bs) = 1 := rfl; omega⟩
      have htw : typeWriter (.vString bs) =
          (intBEBytes 4 (bs.length : Int) ++ bs, none) := by
        simp [typeWriter]
      have hw : write (.vString bs) = (StringType :: valueFlagNone ::
          (intBEBytes 4 (bs.length : Int) ++ bs), none) := by
        rw [write_fq (.vString bs) StringType (by simp) rfl, htw]
      rw [hw]
      refine ⟨?_, rfl⟩
      show read (f + 1)
        (StringType :: valueFlagNone ::
          ((intBEBytes 4 (bs.length : Int) ++ bs) ++ rest)) = _
      rw [read_fq f StringType _ (by decide) (by decide), List.append_assoc]
      unfold typeReader
      norm_num [TraverserType, StringType]
      unfold stringReader
      rw [readSignedBE_append 4 (bs.length : Int) (bs ++ rest) (by norm_num)
        (by norm_num; omega) (by norm_num; omega)]
      have hnneg : ¬ ((bs.length : Int) < 0) := by simp
      simp only [hnneg, if_false, Int.toNat_natCast, bytesBufferRead_append]
      simp [widen]
  | .vBigInt n, rest, fuel, hg, hf => by
      have hr : (getSignedBytesFromBigInt n).length < 2 ^ 31 := by
        simpa [rtGood] using hg
      obtain ⟨f, rfl⟩ : ∃ f, fuel = f + 1 :=
        ⟨fuel - 1, by have h1 : cnt (.vBigInt n) = 1 := rfl; omega⟩
      have htw : typeWriter (.vBigInt n) =
          (intBEBytes 4 ((getSignedBytesFromBigInt n).length : Int) ++
            getSignedBytesFromBigInt n, none) := by
        simp [typeWriter]
      have hw : write (.vBigInt n) = (BigIntegerType :: valueFlagNone ::
          (intBEBytes 4 ((getSignedBytesFromBigInt n).length : Int) ++
            getSignedBytesFromBigInt n), none) := by
        rw [write_fq (.vBigInt n) BigIntegerType (by simp) rfl, htw]
      rw [hw]
      refine ⟨?_, rfl⟩
      show read (f + 1) (BigIntegerType :: valueFlagNone ::
        ((intBEBytes 4 ((getSignedBytesFromBigInt n).length : Int) ++
          getSignedBytesFromBigInt n) ++ rest)) = _
      rw [read_fq f BigIntegerType _ (by decide) (by decide), List.append_assoc]
      unfold typeReader
      norm_num [TraverserType, StringType, BigIntegerType]
      unfold bigIntReader
      rw [readSignedBE_append 4 ((getSignedBytesFromBigInt n).length : Int)
        (getSignedBytesFromBigInt n ++ rest) (by norm_num)
        (by norm_num; omega) (by norm_num; omega)]
      have hnneg : ¬ (((getSignedBytesFromBigInt n).length : Int) < 0) := by simp
      have h2 : ¬ ((getSignedBytesFromBigInt n ++ rest).length <
          (getSignedBytesFromBigInt n).length) := by simp
      simp only [hnneg, if_false, Int.toNat_natCast, h2, List.take_left,
        List.drop_left, bigIntRoundtrip]
      simp [widen]
  | .vList xs, rest, fuel, hg, hf => by
      have hg2 : xs.length < 2 ^ 31 ∧ rtGoodL xs = true := by
        simpa [rtGood] using hg
      obtain ⟨f, rfl⟩ : ∃ f, fuel = f + 1 :=
        ⟨fuel - 1, by have h1 : cnt (.vList xs) = 1 + cntL xs := rfl; omega⟩
      have hfl : cntL xs ≤ f := by
        have h1 : cnt (.vList xs) = 1 + cntL xs := rfl
        omega
      have ih := writeList_rt xs rest f hg2.2 hfl
      match hLW : listWriter xs, ih with
      | (b, e), ih =>
          have he : e = none := ih.2
          subst he
          have htw : typeWriter (.vList xs) =
              (intBEBytes 4 (xs.length : Int) ++ b, none) := by
            simp [typeWriter, seqW, hLW]
          have hw : write (.vList xs) =
              (ListType :: valueFlagNone :: (intBEBytes 4 (xs.length : Int) ++ b),
                none) := by
            rw [write_fq (.vList xs) ListType (by simp) rfl, htw]
          rw [hw]
          refine ⟨?_, rfl⟩
          show read (f + 1) (ListType :: valueFlagNone ::
            ((intBEBytes 4 (xs.length : Int) ++ b) ++ rest)) = _
          rw [read_fq f ListType _ (by decide) (by decide), List.append_assoc]
          unfold typeReader
          norm_num [TraverserType, StringType, BigIntegerType, LongType, IntType,
            ShortType, ByteType, BooleanType, UUIDType, FloatType, DoubleType,
            MapType, ListType]
          unfold listReader
          rw [readSignedBE_append 4 (xs.length : Int) (b ++ rest) (by norm_num)
            (by norm_num; omega) (by norm_num; omega)]
          simp only [Int.toNat_natCast]
          rw [ih.1]
          simp [widen]
  | .vMap ps, rest, fuel, hg, hf => by
      have hg2 : ps.length < 2 ^ 31 ∧ rtGoodP ps = true ∧
          keysFreshP (widenP ps) = true ∧ keysHashableP (widenP ps) = true := by
        have h2 := hg
        simp [rtGood] at h2
        exact ⟨h2.1.1.1, h2.1.1.2, h2.1.2, h2.2⟩
      obtain ⟨f, rfl⟩ : ∃ f, fuel = f + 1 :=
        ⟨fuel - 1, by have h1 : cnt (.vMap ps) = 1 + cntP ps := rfl; omega⟩
      have hfl : cntP ps ≤ f := by
        have h1 : cnt (.vMap ps) = 1 + cntP ps := rfl
        omega
      have ih := writePairs_rt ps rest f .nil hg2.2.1 hg2.2.2.2 hfl
      match hMW : mapWriter ps, ih with
      | (b, e), ih =>
          have he : e = none := ih.2
          subst he
          have htw : typeWriter (.vMap ps) =
              (intBEBytes 4 (ps.length : Int) ++ b, none) := by
            simp [typeWriter, seqW, hMW]
          have hw : write (.vMap ps) =
              (MapType :: valueFlagNone :: (intBEBytes 4 (ps.length : Int) ++ b),
                none) := by
            rw [write_fq (.vMap ps) MapType (by simp) rfl, htw]
          rw [hw]
          refine ⟨?_, rfl⟩
          show read (f + 1) (MapType :: valueFlagNone ::
            ((intBEBytes 4 (ps.length : Int) ++ b) ++ rest)) = _
          rw [read_fq f MapType _ (by decide) (by decide), List.append_assoc]
          unfold typeReader
          norm_num [TraverserType, StringType, BigIntegerType, LongType, IntType,
            ShortType, ByteType, BooleanType, UUIDType, FloatType, DoubleType,
            MapType]
          unfold mapReader
          rw [readSignedBE_append 4 (ps.length : Int) (b ++ rest) (by norm_num)
            (by norm_num; omega) (by norm_num; omega)]
          simp only [Int.toNat_natCast]
          rw [ih.1, mapPutAll_nil (widenP ps) hg2.2.2.1]
          simp [widen]
  termination_by v => sizeOf v

theorem writeList_rt : ∀ (xs : GoList) (rest : List Nat) (fuel : Nat),
    rtGoodL xs = true → cntL xs ≤ fuel →
    readN fuel xs.length ((listWriter xs).1 ++ rest) = (widenL xs, rest, none) ∧
    (listWriter xs).2 = none
  | .nil, rest, fuel, _, _ => by
      have h0 : listWriter .nil = ([], none) := by simp [listWriter]
      rw [h0]
      refine ⟨?_, rfl⟩
      show readN fuel 0 ([] ++ rest) = (widenL .nil, rest, none)
      simp [readN, widenL]
  | .cons h t, rest, fuel, hg, hf => by
      have hg2 : rtGood h = true ∧ rtGoodL t = true := by simpa [rtGoodL] using hg
      have hcnt : cnt h + cntL t ≤ fuel := by
        have h1 : cntL (.cons h t) = cnt h + cntL t := rfl
        omega
      match hWt : listWriter t with
      | (bt, et) =>
          have iht := writeList_rt t rest fuel hg2.2 (by omega)
          rw [hWt] at iht
          have het : et = none := iht.2
          subst het
          match hWh : write h with
          | (bh, eh) =>
              have ihh := write_rt h (bt ++ rest) fuel hg2.1 (by omega)
              rw [hWh] at ihh
              have heh : eh = none := ihh.2
              subst heh
              have hlw : listWriter (.cons h t) = (bh ++ bt, none) := by
                simp [listWriter, seqW, hWh, hWt]
              rw [hlw]
              refine ⟨?_, rfl⟩
              show readN fuel (t.length + 1) ((bh ++ bt) ++ rest) = _
              rw [List.append_assoc]
              unfold readN
              rw [ihh.1]
              show (match readN fuel t.length (bt ++ rest) with
                | (xs, rest2, e) => (GoList.cons (widen h) xs, rest2, e)) = _
              rw [iht.1]
              rfl
  termination_by xs => sizeOf xs

theorem writePairs_rt : ∀ (ps : GoPairs) (rest : List Nat) (fuel : Nat) (acc : GoPairs),
    rtGoodP ps = true → keysHashableP (widenP ps) = true → cntP ps ≤ fuel →
    readPairsN fuel ps.length ((mapWriter ps).1 ++ rest) acc
      = (mapPutAll acc (widenP ps), rest, none) ∧ (mapWriter ps).2 = none
  | .nil, rest, fuel, acc, _, _, _ => by
      have h0 : mapWriter .nil = ([], none) := by simp [mapWriter]
      rw [h0]
      refine ⟨?_, rfl⟩
      show readPairsN fuel 0 ([] ++ rest) acc = (mapPutAll acc (widenP .nil), rest, none)
      simp [readPairsN, mapPutAll, widenP]
  | .cons k v t, rest, fuel, acc, hg, hh, hf => by
      have hg2 : rtGood k = true ∧ rtGood v = true ∧ rtGoodP t = true := by
        simpa [rtGoodP, and_assoc] using hg
      have hh2 : hashable (widen k) = true ∧ keysHashableP (widenP t) = true := by
        simpa [widenP, keysHashableP] using hh
      have hcnt : cnt k + cnt v + cntP t ≤ fuel := by
        have h1 : cntP (.cons k v t) = cnt k + cnt v + cntP t := rfl
        omega
      match hWt : mapWriter t with
      | (bt, et) =>
          have iht := writePairs_rt t rest fuel (mapPut acc (widen k) (widen v))
            hg2.2.2 hh2.2 (by omega)
          rw [hWt] at iht
          have het : et = none := iht.2
          subst het
          match hWv : write v with
          | (bv, ev) =>
              have ihv := write_rt v (bt ++ rest) fuel hg2.2.1 (by omega)
              rw [hWv] at ihv
              have hev : ev = none := ihv.2
              subst hev
              match hWk : write k with
              | (bk, ek) =>
                  have ihk := write_rt k (bv ++ (bt ++ rest)) fuel hg2.1 (by omega)
                  rw [hWk] at ihk
                  have hek : ek = none := ihk.2
                  subst hek
                  have hmw : mapWriter (.cons k v t) = (bk ++ (bv ++ bt), none) := by
                    simp [mapWriter, seqW, hWk, hWv, hWt]
                  rw [hmw]
                  refine ⟨?_, rfl⟩
                  show readPairsN fuel (t.length + 1) ((bk ++ (bv ++ bt)) ++ rest) acc = _
                  rw [List.append_assoc, List.append_assoc]
                  unfold readPairsN
                  rw [ihk.1]
                  simp only [ihv.1, hh2.1, if_true, iht.1]
                  simp [widenP, mapPutAll]
  termination_by ps => sizeOf ps
end

/-! channelResultSet (resultSet.go): the channel is modelled as the
list of Results it currently buffers, together with the closed flag. -/

/-- Result wraps the dynamic value the driver hands to consumers. -/
structure Result where
  result : GoValue
  deriving DecidableEq

/-- State of a channelResultSet as observed under its channel mutex. -/
structure ChannelResultSet where
  channel : List Result
  closed : Bool
  deriving DecidableEq

/-- One evaluation of the condition chain in channelResultSet.IsEmpty,
in source order: empty and not closed releases the lock and waits on the
signal channel (`none`); a non-empty channel answers false; an empty
closed channel answers true. -/
def isEmptyStep (s : ChannelResultSet) : Option Bool :=
  if s.channel.length = 0 ∧ s.closed = false then none
  else if s.channel.length ≠ 0 then some false
  else some true

/-- channelResultSet.IsEmpty evaluated over the sequence of states seen
at successive sendSignal wake-ups: the head state is the one at the
call, each later one the state after the next signal; the tail-call
`return channelResultSet.IsEmpty()` after waitForSignal is the
recursion.  `none` means the call is still blocked in waitForSignal
after the last supplied state. -/
def isEmptyTrace : ChannelResultSet → List ChannelResultSet → Option Bool
  | s, [] => isEmptyStep s
  | s, s1 :: tl =>
      match isEmptyStep s with
      | some b => some b
      | none => isEmptyTrace s1 tl

/-- The per-element send of channelResultSet.addResult for a slice
result: an element whose dynamic type is *Traverser (the pointer type
the reflect.TypeOf comparison expects) is unwrapped to its value;
every other element — including a value-typed Traverser struct, the
form this codec's TraverserType reader produces — is sent as is. -/
def unwrapResultItem (v : GoValue) : Result :=
  match v with
  | .vTraverserP _ value => ⟨value⟩
  | _ => ⟨v⟩

/-- The Results a slice result contributes, one per element. -/
def resultsOfList : GoList → List Result
  | .nil => []
  | .cons h t => unwrapResultItem h :: resultsOfList t

/-- channelResultSet.addResult: a result of slice kind is sent element
by element through unwrapResultItem, anything else is sent once,
wrapped again.  (Go would crash on a non-interface-slice array before
the element loop; no decoded value takes that path.) -/
def addResult (channel : List Result) (r : Result) : List Result :=
  match r.result with
  | .vList xs => channel ++ resultsOfList xs
  | _ => channel ++ [⟨r.result⟩]

theorem resultsOfList_length : ∀ xs : GoList, (resultsOfList xs).length = xs.length
  | .nil => rfl
  | .cons h t => by
      show (resultsOfList t).length + 1 = t.length + 1
      rw [resultsOfList_length t]

/-! DriverRemoteConnection settings resolution
(driverRemoteConnection.go). -/

/-- The DriverRemoteConnectionSettings fields NewDriverRemoteConnection
mutates before building the pool. -/
structure DriverRemoteConnectionSettings where
  newConnectionThreshold : Int
  maximumConcurrentConnections : Int
  initialConcurrentConnections : Int
  session : String

/-- The settings mutation NewDriverRemoteConnection performs after the
caller's configuration functions ran: a non-empty Session forces
MaximumConcurrentConnections to 1 (logging sessionDetected), then
InitialConcurrentConnections is clamped down to
MaximumConcurrentConnections; newLoadBalancingPool is then called with
the resulting values. -/
def resolveDriverRemoteConnectionSettings (s : DriverRemoteConnectionSettings) :
    DriverRemoteConnectionSettings :=
  let s1 := if s.session ≠ "" then { s with maximumConcurrentConnections := 1 } else s
  if s1.initialConcurrentConnections > s1.maximumConcurrentConnections then
    { s1 with initialConcurrentConnections := s1.maximumConcurrentConnections }
  else s1

/-! Claim theorems. -/

/-- C5: encoding a nil value at the outer fully-qualified level via
graphBinaryTypeSerializer.write appends exactly the two bytes
0xFE 0x01 (nullBytes = NullType then the null value flag), nothing
else, and no error. -/
theorem C5_null_outer_encoding :
    write GoValue.vNull = ([0xFE, 0x01], none) ∧ nullBytes = [NullType, 0x01] := by
  constructor
  · have h : write GoValue.vNull = (nullBytes, none) := by simp [write]
    rw [h]
    rfl
  · rfl

/-- C7: handing nil to a non-nullable slot makes both writeValue and
writeTypeValue return the unexpected-null error having appended no
bytes at all to the buffer. -/
theorem C7_nil_nonnullable_errors :
    writeValue GoValue.vNull false = ([], some errUnexpectedNull) ∧
    writeTypeValue GoValue.vNull false = ([], some errUnexpectedNull) := by
  constructor
  · simp [writeValue]
  · simp [writeTypeValue]

/-- C9: bools are serialized under the Byte type code 0x24 (not the
declared BooleanType 0x27) with value byte 0x01 for true and 0x00 for
false, so a fully-qualified decode of an encoded bool yields the uint8
value 1, never a bool. -/
theorem C9_bool_encoded_as_byte :
    write (GoValue.vBool true) = ([ByteType, valueFlagNone, 0x01], none) ∧
    write (GoValue.vBool false) = ([ByteType, valueFlagNone, 0x00], none) ∧
    ByteType = 0x24 ∧ BooleanType = 0x27 ∧ ByteType ≠ BooleanType ∧
    read 2 (write (GoValue.vBool true)).1 = (GoValue.vByte 1, [], none) ∧
    (∀ b : Bool, GoValue.vByte 1 ≠ GoValue.vBool b) := by
  have htwt : typeWriter (GoValue.vBool true) = ([1], none) := by simp [typeWriter]
  have htwf : typeWriter (GoValue.vBool false) = ([0], none) := by simp [typeWriter]
  have hwt : write (GoValue.vBool true) = (ByteType :: valueFlagNone :: [1], none) := by
    rw [write_fq (GoValue.vBool true) ByteType (by simp) rfl, htwt]
  have hwf : write (GoValue.vBool false) = (ByteType :: valueFlagNone :: [0], none) := by
    rw [write_fq (GoValue.vBool false) ByteType (by simp) rfl, htwf]
  refine ⟨hwt, hwf, rfl, rfl, by decide, ?_, by intro b; simp⟩
  rw [hwt]
  show read (1 + 1) (ByteType :: valueFlagNone :: ([1] ++ [])) = _
  rw [read_fq 1 ByteType _ (by decide) (by decide)]
  unfold typeReader
  norm_num [TraverserType, StringType, BigIntegerType, LongType, IntType,
    ShortType, ByteType]
  norm_num [readUnsignedBE, beNat]

/-- C2 counterexample: the in-range integral value int64(0) fits in
[-2^31, 2^31-1], yet getSerializerToWrite selects the Int64 (LongType)
serializer for it, not Int32 (IntType) — contradicting the claim that
the serializer picks Int32 whenever the value fits. -/
theorem C2_counterexample :
    getSerializerToWriteDataType (GoValue.vInt64 0) = some LongType ∧
    LongType ≠ IntType ∧
    -(2 ^ 31) ≤ (0 : Int) ∧ (0 : Int) ≤ 2 ^ 31 - 1 := by
  refine ⟨rfl, by decide, by norm_num, by norm_num⟩

/-- C2 amended: the wire type is selected purely by the host Go type of
the value, never by its magnitude: int32 and uint16 map to IntType,
int64, int and uint32 map to LongType, *big.Int maps to
BigIntegerType, int16 to ShortType and uint8 to ByteType, each for
every value of that type. -/
theorem C2_selection_by_host_type :
    (∀ n : Int, getSerializerToWriteDataType (GoValue.vInt32 n) = some IntType) ∧
    (∀ n : Nat, getSerializerToWriteDataType (GoValue.vUInt16 n) = some IntType) ∧
    (∀ n : Int, getSerializerToWriteDataType (GoValue.vInt64 n) = some LongType) ∧
    (∀ n : Int, getSerializerToWriteDataType (GoValue.vGoInt n) = some LongType) ∧
    (∀ n : Nat, getSerializerToWriteDataType (GoValue.vUInt32 n) = some LongType) ∧
    (∀ n : Int, getSerializerToWriteDataType (GoValue.vBigInt n) = some BigIntegerType) ∧
    (∀ n : Int, getSerializerToWriteDataType (GoValue.vShort n) = some ShortType) ∧
    (∀ n : Nat, getSerializerToWriteDataType (GoValue.vByte n) = some ByteType) :=
  ⟨fun _ => rfl, fun _ => rfl, fun _ => rfl, fun _ => rfl, fun _ => rfl,
    fun _ => rfl, fun _ => rfl, fun _ => rfl⟩

/-- C1 counterexample: decode(encode(v)) fails to return v already for
v = bool true: the fully-qualified round trip yields the uint8 value 1
(ByteType), which is not the bool it started from, and bool-to-byte is
not one of the documented integer-type widenings. -/
theorem C1_counterexample :
    read 2 (write (GoValue.vBool true)).1 = (GoValue.vByte 1, [], none) ∧
    GoValue.vByte 1 ≠ GoValue.vBool true := by
  constructor
  · have htwt : typeWriter (GoValue.vBool true) = ([1], none) := by simp [typeWriter]
    have hwt : write (GoValue.vBool true) = (ByteType :: valueFlagNone :: [1], none) := by
      rw [write_fq (GoValue.vBool true) ByteType (by simp) rfl, htwt]
    rw [hwt]
    show read (1 + 1) (ByteType :: valueFlagNone :: ([1] ++ [])) = _
    rw [read_fq 1 ByteType _ (by decide) (by decide)]
    unfold typeReader
    norm_num [TraverserType, StringType, BigIntegerType, LongType, IntType,
      ShortType, ByteType]
    norm_num [readUnsignedBE, beNat]
  · simp

/-- C1 amended: for every well-formed value built without bool,
bytecode or either traverser form (whose collection, string and
big-integer byte lengths fit an int32, whose map keys remain hashable
after decoding - a slice- or map-valued key, e.g. any array- or
list-keyed map, panics the decoder's map insertion - and stay
pairwise-unequal under Go's runtime key equality after widening), the
fully-qualified decode of the fully-qualified encoding returns exactly
the value up to the documented integer-type widening (int and uint32 to
int64, uint16 to int32), consuming exactly the encoded bytes; the
encode itself succeeds.  Bool values decode to the corresponding byte
instead, bytecode has no registered reader and traversers have no
registered writer, so those three cannot round-trip. -/
theorem C1_roundtrip_amended (v : GoValue) (rest : List Nat) (fuel : Nat)
    (hg : rtGood v = true) (hf : cnt v ≤ fuel) :
    read fuel ((write v).1 ++ rest) = (widen v, rest, none) ∧ (write v).2 = none :=
  write_rt v rest fuel hg hf

/-- C1 witness: the round trip at the concrete list [int32 7, null]. -/
theorem C1_witness :
    rtGood (GoValue.vList (GoList.cons (GoValue.vInt32 7)
      (GoList.cons GoValue.vNull GoList.nil))) = true ∧
    cnt (GoValue.vList (GoList.cons (GoValue.vInt32 7)
      (GoList.cons GoValue.vNull GoList.nil))) ≤ 9 ∧
    read 9 ((write (GoValue.vList (GoList.cons (GoValue.vInt32 7)
        (GoList.cons GoValue.vNull GoList.nil)))).1 ++ [])
      = (widen (GoValue.vList (GoList.cons (GoValue.vInt32 7)
          (GoList.cons GoValue.vNull GoList.nil))), [], none) ∧
    (write (GoValue.vList (GoList.cons (GoValue.vInt32 7)
      (GoList.cons GoValue.vNull GoList.nil)))).2 = none :=
  ⟨by decide, by decide,
    (C1_roundtrip_amended _ [] 9 (by decide) (by decide)).1,
    (C1_roundtrip_amended _ [] 9 (by decide) (by decide)).2⟩

/-- C3: IsEmpty answers true exactly when no item is buffered and none
can arrive: on a closed empty ResultSet it returns true immediately,
ignoring any future signals (no blocking); with an item buffered it
returns false; and when the queue is empty but still open it blocks in
waitForSignal and re-evaluates at the next state rather than returning
a snapshot. -/
theorem C3_isEmpty_semantics (s : ChannelResultSet) (future : List ChannelResultSet) :
    (s.channel = [] ∧ s.closed = true → isEmptyTrace s future = some true) ∧
    (s.channel ≠ [] → isEmptyTrace s future = some false) ∧
    (s.channel = [] ∧ s.closed = false →
      isEmptyTrace s future = match future with
        | [] => none
        | s1 :: tl => isEmptyTrace s1 tl) := by
  refine ⟨?_, ?_, ?_⟩
  · rintro ⟨h1, h2⟩
    cases future <;> simp [isEmptyTrace, isEmptyStep, h1, h2]
  · intro h1
    have h2 : s.channel.length ≠ 0 := by
      intro hc
      exact h1 (List.length_eq_zero.mp hc)
    cases future <;> simp [isEmptyTrace, isEmptyStep, h2]
  · rintro ⟨h1, h2⟩
    cases future <;> simp [isEmptyTrace, isEmptyStep, h1, h2]

/-- C3 witness: closed-empty answers true with no future signal at all
(no blocking), a buffered item answers false, and an open-empty set
waits for the next state and then answers from it. -/
theorem C3_witness :
    isEmptyTrace ⟨[], true⟩ [] = some true ∧
    isEmptyTrace ⟨[⟨GoValue.vInt32 1⟩], false⟩ [] = some false ∧
    isEmptyTrace ⟨[], false⟩ [⟨[], true⟩] = some true := by
  refine ⟨(C3_isEmpty_semantics ⟨[], true⟩ []).1 ⟨rfl, rfl⟩,
    (C3_isEmpty_semantics ⟨[⟨GoValue.vInt32 1⟩], false⟩ []).2.1 (by simp), ?_⟩
  have h := (C3_isEmpty_semantics ⟨[], false⟩ [⟨[], true⟩]).2.2 ⟨rfl, rfl⟩
  rw [h]
  exact (C3_isEmpty_semantics ⟨[], true⟩ []).1 ⟨rfl, rfl⟩

/-- C4 counterexample: a wire delivery carrying a list with one
value-typed Traverser — the form this codec's TraverserType reader
produces — is enqueued still wrapped: addResult does not unwrap it to
its value, because the type test only matches the *Traverser pointer
form. -/
theorem C4_counterexample :
    addResult [] ⟨GoValue.vList (GoList.cons
        (GoValue.vTraverser 3 (GoValue.vInt32 5)) GoList.nil)⟩
      = [⟨GoValue.vTraverser 3 (GoValue.vInt32 5)⟩] ∧
    (⟨GoValue.vTraverser 3 (GoValue.vInt32 5)⟩ : Result) ≠ ⟨GoValue.vInt32 5⟩ := by
  constructor
  · rfl
  · simp

/-- C4 amended: addResult enqueues exactly one Result per element of a
delivered list — the element count, never the traverser bulk,
determines how many Results are enqueued — and an element is unwrapped
to its value only when it is a *Traverser pointer; a value-typed
Traverser element (the codec reader's output) is enqueued as is. -/
theorem C4_one_result_per_element (channel : List Result) (xs : GoList)
    (b : Int) (v : GoValue) :
    addResult channel ⟨GoValue.vList xs⟩ = channel ++ resultsOfList xs ∧
    (addResult channel ⟨GoValue.vList xs⟩).length = channel.length + xs.length ∧
    unwrapResultItem (GoValue.vTraverserP b v) = ⟨v⟩ ∧
    unwrapResultItem (GoValue.vTraverser b v) = ⟨GoValue.vTraverser b v⟩ := by
  refine ⟨rfl, ?_, rfl, rfl⟩
  show (channel ++ resultsOfList xs).length = _
  rw [List.length_append, resultsOfList_length]

/-- C8: a non-empty session id forces the effective
MaximumConcurrentConnections of the pool NewDriverRemoteConnection
builds to 1, whatever the caller configured. -/
theorem C8_session_forces_single_connection (s : DriverRemoteConnectionSettings)
    (h : s.session ≠ "") :
    (resolveDriverRemoteConnectionSettings s).maximumConcurrentConnections = 1 := by
  unfold resolveDriverRemoteConnectionSettings
  simp only [h, if_true, ne_eq, not_false_eq_true, if_pos]
  split <;> rfl

/-- C8 witness: a session configured with 8 concurrent connections still
gets a pool capped at 1. -/
theorem C8_witness :
    ({ newConnectionThreshold := 4, maximumConcurrentConnections := 8,
       initialConcurrentConnections := 1,
       session := "s1" } : DriverRemoteConnectionSettings).session ≠ "" ∧
    (resolveDriverRemoteConnectionSettings
      { newConnectionThreshold := 4, maximumConcurrentConnections := 8,
        initialConcurrentConnections := 1,
        session := "s1" }).maximumConcurrentConnections = 1 :=
  ⟨by decide,
    C8_session_forces_single_connection
      { newConnectionThreshold := 4, maximumConcurrentConnections := 8,
        initialConcurrentConnections := 1, session := "s1" } (by decide)⟩

/-- C10 counterexample: readValue does not return a nil error on EVERY
buffer whose first byte matches the requested registered type code.  On
the StringType buffer {0x03, 0x00, 0xFF, 0xFF, 0xFF, 0xFF} the type
code matches, but the declared string length -1 sends the reader into
make([]byte, -1), a runtime panic that unwinds through readValue - the
val, _ := discard never runs and no nil error is ever handed back. -/
theorem C10_counterexample :
    readValue 1 [0x03, 0x00, 0xFF, 0xFF, 0xFF, 0xFF] 0x03 true
      = (GoValue.vNull, [], some errMakeSliceNegative) ∧
    some errMakeSliceNegative ≠ (none : Option String) := by
  constructor
  · have hrtv : readTypeValue 1 0x03 [0x00, 0xFF, 0xFF, 0xFF, 0xFF] true
        = (GoValue.vNull, [], some errMakeSliceNegative) := by
      unfold readTypeValue
      norm_num [valueFlagNull]
      unfold typeReader
      norm_num [TraverserType, StringType]
      norm_num [stringReader, readSignedBE, signedOfBE, beNat]
    unfold readValue
    simp [show isKnownReadType 0x03 = true from by decide, hrtv,
      show isPanicMarker (some errMakeSliceNegative) = true from by decide]
  · simp

/-- C10 amended: whenever the first byte of the buffer matches the
requested (registered) type code and the body read returns at all - a
negative String or BigInteger length panics inside make, and an
unhashable decoded map key panics the map insertion, unwinding through
readValue instead - readValue returns a nil error no matter how the
body read failed: the readTypeValue error is discarded.  Concretely, a
truncated Int32 body makes readTypeValue fail with EOF and yield the
zero value, yet readValue hands back (int32 0, nil error). -/
theorem C10_readValue_discards_errors :
    (∀ (fuel typ : Nat) (nullable : Bool) (buf : List Nat),
      isKnownReadType typ = true →
      isPanicMarker (readTypeValue fuel typ buf nullable).2.2 = false →
      (readValue fuel (typ :: buf) typ nullable).2.2 = none) ∧
    readValue 1 [0x01, 0x00] 0x01 true = (GoValue.vInt32 0, [], none) ∧
    readTypeValue 1 0x01 [0x00] true = (GoValue.vInt32 0, [], some errEOF) := by
  have hrtv : readTypeValue 1 0x01 [0x00] true = (GoValue.vInt32 0, [], some errEOF) := by
    unfold readTypeValue
    norm_num [valueFlagNull]
    unfold typeReader
    norm_num [TraverserType, StringType, BigIntegerType, LongType, IntType]
    norm_num [readSignedBE]
  refine ⟨?_, ?_, hrtv⟩
  · intro fuel typ nullable buf hknown hnp
    rcases h2 : readTypeValue fuel typ buf nullable with ⟨v, rest2, e⟩
    rw [h2] at hnp
    unfold readValue
    simp [hknown, h2, hnp]
  · unfold readValue
    simp [show isKnownReadType 0x01 = true from by decide, hrtv,
      show isPanicMarker (some errEOF) = false from by decide]

/-- C10 witness: the general nil-error fact applied at the truncated
Int32 buffer, where the body read fails with a returned EOF, not a
panic. -/
theorem C10_witness :
    isKnownReadType 0x01 = true ∧
    isPanicMarker (readTypeValue 1 0x01 [0x00] true).2.2 = false ∧
    (readValue 1 (0x01 :: [0x00]) 0x01 true).2.2 = none := by
  have hrtv : readTypeValue 1 0x01 [0x00] true = (GoValue.vInt32 0, [], some errEOF) := by
    unfold readTypeValue
    norm_num [valueFlagNull]
    unfold typeReader
    norm_num [TraverserType, StringType, BigIntegerType, LongType, IntType]
    norm_num [readSignedBE]
  have hnp : isPanicMarker (readTypeValue 1 0x01 [0x00] true).2.2 = false := by
    rw [hrtv]
    decide
  exact ⟨by decide, hnp,
    C10_readValue_discards_errors.1 1 0x01 true [0x00] (by decide) hnp⟩

/-- C6 counterexample: a List whose declared length field is negative
(0xFFFFFFFF = -1) deserializes successfully to the empty list with a
nil error — no unexpected-value-length failure exists. -/
theorem C6_counterexample :
    listReader 5 [0xFF, 0xFF, 0xFF, 0xFF] = (GoValue.vList GoList.nil, [], none) := by
  have h4 : readSignedBE 4 [0xFF, 0xFF, 0xFF, 0xFF] = (-1, [], none) := by
    norm_num [readSignedBE, signedOfBE, beNat]
  have h0 : readN 5 0 [] = (GoList.nil, [], none) := by
    unfold readN
    rfl
  unfold listReader
  rw [h4]
  simp [h0]

/-- C6 amended: the decoder does not validate length fields.  A
negative List or Map length runs the element loop zero times and
returns an empty collection with a nil error; a String length larger
than the remaining bytes returns the remaining bytes zero-padded to the
declared length, again with a nil error as long as anything at all
remained.  A length shortfall inside List or Map elements surfaces only
as the underlying io read error; no unexpected-value-length error is
produced anywhere. -/
theorem C6_lengths_unchecked :
    (∀ (fuel : Nat) (size : Int) (rest : List Nat), size < 0 → -(2 ^ 31) ≤ size →
      listReader fuel (intBEBytes 4 size ++ rest) = (GoValue.vList GoList.nil, rest, none)) ∧
    (∀ (fuel : Nat) (size : Int) (rest : List Nat), size < 0 → -(2 ^ 31) ≤ size →
      mapReader fuel (intBEBytes 4 size ++ rest) = (GoValue.vMap GoPairs.nil, rest, none)) ∧
    (∀ (size : Int) (bs : List Nat), 0 < size → size < 2 ^ 31 → bs ≠ [] →
      (bs.length : Int) < size →
      stringReader (intBEBytes 4 size ++ bs)
        = (GoValue.vString (bs ++ List.replicate (size.toNat - bs.length) 0), [], none)) := by
  refine ⟨?_, ?_, ?_⟩
  · intro fuel size rest hneg hlo
    unfold listReader
    rw [readSignedBE_append 4 size rest (by norm_num) (by norm_num; omega)
      (by norm_num; omega)]
    have h0 : readN fuel size.toNat rest = (GoList.nil, rest, none) := by
      have hz : size.toNat = 0 := by omega
      rw [hz]
      unfold readN
      rfl
    simp [h0]
  · intro fuel size rest hneg hlo
    unfold mapReader
    rw [readSignedBE_append 4 size rest (by norm_num) (by norm_num; omega)
      (by norm_num; omega)]
    have h0 : readPairsN fuel size.toNat rest GoPairs.nil = (GoPairs.nil, rest, none) := by
      have hz : size.toNat = 0 := by omega
      rw [hz]
      unfold readPairsN
      rfl
    simp [h0]
  · intro size bs h1 h2 h3 h4
    unfold stringReader
    rw [readSignedBE_append 4 size bs (by norm_num) (by norm_num; omega)
      (by norm_num; omega)]
    have hnneg : ¬ (size < 0) := by omega
    have hblen : bs.length ≤ size.toNat := by omega
    unfold bytesBufferRead
    simp only [hnneg, if_false, List.take_of_length_le hblen,
      List.drop_eq_nil_of_le hblen]
    rw [if_neg (by rintro ⟨_, he⟩; exact h3 he)]

/-- C6 witness: the amended behavior at a negative list length, a
negative map length, and a 5-byte string length with only 2 bytes
left. -/
theorem C6_witness :
    listReader 1 (intBEBytes 4 (-1) ++ []) = (GoValue.vList GoList.nil, [], none) ∧
    mapReader 1 (intBEBytes 4 (-1) ++ []) = (GoValue.vMap GoPairs.nil, [], none) ∧
    stringReader (intBEBytes 4 5 ++ [104, 105])
      = (GoValue.vString ([104, 105] ++ List.replicate ((5 : Int).toNat - 2) 0),
          [], none) :=
  ⟨C6_lengths_unchecked.1 1 (-1) [] (by norm_num) (by norm_num),
   C6_lengths_unchecked.2.1 1 (-1) [] (by norm_num) (by norm_num),
   C6_lengths_unchecked.2.2 5 [104, 105] (by norm_num) (by norm_num) (by simp)
     (by norm_num)⟩

end GremlinGo
